import Mathlib

/-!
# DAT_Extension: the chat-message store of `scripts/ChatMessage.js`

A shallow embedding of the class `ChatMessage`.  The class keeps its whole state in
static fields; here that state is the record `State`, threaded explicitly through every
operation.  Message instances are mutable objects shared by reference (the author index
and the reply lists hold the same objects), so they live in a heap and are named by
their allocation index.  A JavaScript `throw` keeps every mutation made before it, so an
operation that can throw returns `Except JsError α × State`.

Strings are Lean strings; the two patterns of the script only ever test single ASCII
characters, so nothing depends on the UTF-16 view JavaScript has of them.  The host
functions the class calls (`JSON.parse`, `document.querySelector`, `window.setTimeout`)
are parameters or explicit inputs of the operations that use them.

`getMyMessages` is not modelled: it returns `[]` at its first statement, and the
statements behind that `return` do not parse as written.
-/

namespace DAT

deriving instance DecidableEq for Except

/-! ## Values -/

/-- A reference to a `ChatMessage` instance: its index in the heap. -/
abbrev Ref := Nat

/-- The exceptions the script can raise. -/
inductive JsError
  | TypeError
  | ReferenceError
  | SyntaxError
  | RangeError
  deriving DecidableEq, Repr

/-- An element of a `replies` array: a message instance (after `addReply`), a bare number
(what the instance `toJSON` writes and what the constructor copies from plain data), or
`undefined` (the `id` of something that has none). -/
inductive Reply
  | message (r : Ref)
  | id (n : Nat)
  | undefined
  deriving DecidableEq, Repr

/-- A plain object `{ author, id, isAdmin, message, replies, timestamp }`: what
`parseHtmlLiElement` and the instance `toJSON` return and what the constructor accepts in
place of a list element.  `id = none` stands for `null`. -/
structure MessageData where
  author : String
  id : Option Nat
  isAdmin : Bool
  message : String
  replies : List Reply
  timestamp : String
  deriving DecidableEq, Repr

/-- A `ChatMessage` instance.  `id` is `none` until the last statement of the constructor
has assigned it. -/
structure ChatMessage where
  replies : List Reply
  author : String
  isAdmin : Bool
  message : String
  timestamp : String
  id : Option Nat
  deriving DecidableEq, Repr, Inhabited

/-- A raw page record: one `li` of the comment list, seen through the four reads the
script makes on it (`div.message strong` text and `is-admin` class, `div.message p` text,
`div > script` text). -/
structure HTMLLIElement where
  author : String
  isAdmin : Bool
  message : String
  localTimeScript : String
  deriving DecidableEq, Repr

/-- An element of a message array inside a snapshot: a live instance (the static `toJSON`
hands out the arrays of the author index themselves), a plain object (the same after a
trip through JSON text, where `JSON.stringify` calls the instance `toJSON`), or a string. -/
inductive Entry
  | live (r : Ref)
  | object (o : MessageData)
  | text (t : String)
  deriving DecidableEq, Repr

/-- The snapshot object.  The key the code writes and reads is spelled `aurthorLookup`;
`none` stands for an object that lacks that key. -/
structure Snapshot where
  adminNames : List String
  aurthorLookup : Option (List (String × List Entry))
  myShortName : Option String
  timeStampOptions : List (String × String)
  totalMessageCount : Nat
  deriving DecidableEq, Repr

/-- The static fields of the class, the heap of message instances, and the log of the
delays handed to `window.setTimeout` (the callback is always `parseAllMessages`). -/
structure State where
  adminNames : List String
  authorMap : List (String × List Ref)
  myShortName : Option String
  parseAttempts : Nat
  timeStampOptions : List (String × String)
  totalMessageCount : Nat
  heap : List ChatMessage
  timeouts : List Nat
  deriving DecidableEq, Repr

/-- The state right after the class body has been evaluated (lines 3-19). -/
def State.initial : State where
  adminNames := []
  authorMap := []
  myShortName := none
  parseAttempts := 0
  timeStampOptions :=
    [("year", "numeric"), ("month", "numeric"), ("day", "numeric"),
     ("hour", "2-digit"), ("minute", "2-digit")]
  totalMessageCount := 0
  heap := []
  timeouts := []

/-- Read the instance behind a reference. -/
def State.deref (s : State) (r : Ref) : ChatMessage :=
  s.heap.getD r default

/-! ## `Map` -/

/-- `Map.prototype.has`. -/
def mapHas (m : List (String × List Ref)) (key : String) : Bool :=
  m.any (fun e => e.1 == key)

/-- `Map.prototype.get`; `none` is `undefined`. -/
def mapGet (m : List (String × List Ref)) (key : String) : Option (List Ref) :=
  match m with
  | [] => none
  | e :: rest => if e.1 = key then some e.2 else mapGet rest key

/-- `Map.prototype.set`: an existing key keeps its place in the iteration order, a new
key goes to the end. -/
def mapSet (m : List (String × List Ref)) (key : String) (value : List Ref) :
    List (String × List Ref) :=
  match m with
  | [] => [(key, value)]
  | e :: rest => if e.1 = key then (key, value) :: rest else e :: mapSet rest key value

/-! ## The timestamp pattern (line 222) -/

/-- One position of the pattern. -/
inductive Atom
  | chr (c : Char)
  | digit
  | digitOrDot
  deriving DecidableEq, Repr

/-- Does the character fit the position?  `\d` is `[0-9]`. -/
def Atom.test : Atom → Char → Bool
  | .chr c, x => x == c
  | .digit, x => x.isDigit
  | .digitOrDot, x => x.isDigit || x == '.'

/-- Match a fixed run of positions at the head of the input; the result is the rest. -/
def matchAtoms : List Atom → List Char → Option (List Char)
  | [], cs => some cs
  | _ :: _, [] => none
  | a :: as, c :: cs => if a.test c then matchAtoms as cs else none

/-- The literal text `var timestamp = "`. -/
def timestampLead : List Atom :=
  "var timestamp = \"".toList.map Atom.chr

/-- The fixed part of the group: `\d{4}-\d{2}-\d{2}T\d{2}:\d{2}:`. -/
def timestampHead : List Atom :=
  [.digit, .digit, .digit, .digit, .chr '-', .digit, .digit, .chr '-', .digit, .digit,
   .chr 'T', .digit, .digit, .chr ':', .digit, .digit, .chr ':']

/-- The tail `[\d\.]{j}Z"` for one choice `j` of the repetition count. -/
def timestampTail (j : Nat) : List Atom :=
  List.replicate j Atom.digitOrDot ++ [.chr 'Z', .chr '"']

/-- Try the pattern at the head of the input.  The quantifier `{1,6}` is greedy: the
counts are tried from 6 down to 1.  The result is capture group 1. -/
def matchTimestampAt (cs : List Char) : Option (List Char) :=
  match matchAtoms timestampLead cs with
  | none => none
  | some afterLead =>
    match matchAtoms timestampHead afterLead with
    | none => none
    | some afterHead =>
      ([6, 5, 4, 3, 2, 1].find? (fun j => (matchAtoms (timestampTail j) afterHead).isSome)).map
        (fun j => afterLead.take (timestampHead.length + j + 1))

/-- Search along the input for the leftmost match, as `String.prototype.match` does. -/
def searchTimestamp : List Char → Option (List Char)
  | [] => matchTimestampAt []
  | c :: cs =>
    match matchTimestampAt (c :: cs) with
    | some t => some t
    | none => searchTimestamp cs

/-- `localTimeScript.match(/var timestamp \= "(...)"/)?.[1]`; `none` is `undefined`. -/
def matchTimestamp (localTimeScript : String) : Option String :=
  (searchTimestamp localTimeScript.toList).map String.mk

/-! ## Static and instance methods -/

/-- `getAuthorMessages` (lines 118-122). -/
def getAuthorMessages (author : String) (s : State) : List Ref :=
  let has := mapHas s.authorMap author
  let messageArray := if has then (mapGet s.authorMap author).getD [] else []
  messageArray

/-- `addMessage` (lines 26-32): push onto the author's array, store the array under the
author, and return the counter as it was before the increment. -/
def addMessage (chatMessage : Ref) (s : State) : Nat × State :=
  let author := (s.deref chatMessage).author
  let messageArray := getAuthorMessages author s
  let messageArray := messageArray ++ [chatMessage]
  let s1 := { s with authorMap := mapSet s.authorMap author messageArray }
  (s1.totalMessageCount, { s1 with totalMessageCount := s1.totalMessageCount + 1 })

/-- `addReply` (lines 197-199): `this.replies.push(chatMessage)`. -/
def addReply (this : Ref) (chatMessage : Ref) (s : State) : State :=
  { s with heap := s.heap.modify (fun m => { m with replies := m.replies ++ [.message chatMessage] }) this }

/-- `addReplies` (lines 39-50).  Its first statement calls `getAuthorMessages(user)` by
its bare name.  A static method is a property of the class, not a binding in scope, and
nothing else declares that name, so evaluating the identifier raises a `ReferenceError`
before the loop and before `authorMap.set` are reached.  `user` is `none` when the
caller hands over `undefined`. -/
def addReplies (_user : Option String) (_chatMessage : Ref) (s : State) :
    Except JsError Unit × State :=
  (.error .ReferenceError, s)

/-- The object `matchAll` returns: a lazy iterator over the matches of
`/@([^\s]*?)/g` in the text.  It is an object, never `null`. -/
structure RegExpStringIterator where
  input : String
  deriving DecidableEq, Repr

/-- `object.message.matchAll(/@([^\s]*?)/g)`. -/
def matchAll (message : String) : RegExpStringIterator :=
  ⟨message⟩

/-- `repliedAuthors.length`: an iterator has no such property, the read gives `undefined`
(`none`). -/
def RegExpStringIterator.length (_ : RegExpStringIterator) : Option Nat :=
  none

/-- `repliedAuthors[index]`: likewise `undefined`. -/
def RegExpStringIterator.at (_ : RegExpStringIterator) (_ : Nat) : Option String :=
  none

/-- The loop of lines 188-190, `for (index; index < replyToCount; index++)`.  With
`replyToCount` undefined the test `index < undefined` is false and the body never runs. -/
def mentionLoop (repliedAuthors : RegExpStringIterator) (this : Ref) (replyToCount : Option Nat) :
    Nat → Nat → State → Except JsError Unit × State
  | 0, _, s => (.ok (), s)
  | fuel + 1, index, s =>
    match replyToCount with
    | none => (.ok (), s)
    | some count =>
      if index < count then
        match addReplies (repliedAuthors.at index) this s with
        | (.error e, s1) => (.error e, s1)
        | (.ok (), s1) => mentionLoop repliedAuthors this replyToCount fuel (index + 1) s1
      else (.ok (), s)

/-- The mention scan of the constructor (lines 185-191). -/
def mentionScan (message : String) (this : Ref) (s : State) : Except JsError Unit × State :=
  let repliedAuthors := matchAll message
  let replyToCount := repliedAuthors.length
  mentionLoop repliedAuthors this replyToCount (replyToCount.getD 0 + 1) 1 s

/-- `parseHtmlLiElement` (lines 211-234).  The roster is updated before the timestamp is
looked for. -/
def parseHtmlLiElement (liElement : HTMLLIElement) (s : State) : Except JsError MessageData × State :=
  let author := liElement.author
  let isAdmin := liElement.isAdmin
  let s1 :=
    if isAdmin then
      if author ∉ s.adminNames then { s with adminNames := s.adminNames ++ [author] } else s
    else s
  let message := liElement.message
  match matchTimestamp liElement.localTimeScript with
  | none => (.error .TypeError, s1)
  | some timestamp =>
    (.ok { author := author, id := none, isAdmin := isAdmin, message := message,
           replies := [], timestamp := timestamp }, s1)

/-- What the constructor is given: a list element of the page or a plain object. -/
inductive ConstructorData
  | li (e : HTMLLIElement)
  | object (o : MessageData)
  deriving DecidableEq, Repr

/-- Assign `this.id`. -/
def setId (this : Ref) (id : Nat) (s : State) : State :=
  { s with heap := s.heap.modify (fun m => { m with id := some id }) this }

/-- The constructor (lines 177-195).  The new instance is the next free heap cell; it
gets `replies`, `author`, `isAdmin`, `message`, then the mention scan runs for a list
element, then `timestamp` and `id` are set, the latter through `addMessage` when the
data carries none. -/
def construct (data : ConstructorData) (s : State) : Except JsError Ref × State :=
  let parsed : Except JsError MessageData × State :=
    match data with
    | .li e => parseHtmlLiElement e s
    | .object o => (.ok o, s)
  match parsed with
  | (.error e, s1) => (.error e, s1)
  | (.ok object, s1) =>
    let this := s1.heap.length
    let s2 := { s1 with heap := s1.heap ++
      [{ replies := object.replies, author := object.author, isAdmin := object.isAdmin,
         message := object.message, timestamp := object.timestamp, id := none }] }
    let scanned : Except JsError Unit × State :=
      match data with
      | .li _ => mentionScan object.message this s2
      | .object _ => (.ok (), s2)
    match scanned with
    | (.error e, s3) => (.error e, s3)
    | (.ok (), s3) =>
      match object.id with
      | some id => (.ok this, setId this id s3)
      | none =>
        let (id, s4) := addMessage this s3
        (.ok this, setId this id s4)

/-- The loop of lines 159-162: one `new ChatMessage(messageHtml)` per element, pushed
onto `chatMessageArray`; a throw ends the loop. -/
def ingestLoop : List HTMLLIElement → List Ref → State → Except JsError (List Ref) × State
  | [], chatMessageArray, s => (.ok chatMessageArray, s)
  | messageHtml :: rest, chatMessageArray, s =>
    match construct (.li messageHtml) s with
    | (.error e, s1) => (.error e, s1)
    | (.ok m, s1) => ingestLoop rest (chatMessageArray ++ [m]) s1

/-- `parseAllMessages` (lines 139-164).  `messageUi` is the result of
`document.querySelector`: `none` when the container is absent, else its children in
document order.  A return without a value is `.ok none`. -/
def parseAllMessages (messageUi : Option (List HTMLLIElement)) (s : State) :
    Except JsError (Option (List Ref)) × State :=
  let attempt := s.parseAttempts + 1
  let s1 := { s with parseAttempts := attempt }
  match messageUi with
  | none =>
    if attempt < 10 then
      (.ok none, { s1 with timeouts := s1.timeouts ++ [attempt * 250] })
    else if attempt = 10 then
      (.ok none, { s1 with timeouts := s1.timeouts ++ [10000] })
    else
      (.error .RangeError, s1)
  | some children =>
    let messageArray := children.reverse
    match ingestLoop messageArray [] s1 with
    | (.error e, s2) => (.error e, s2)
    | (.ok chatMessageArray, s2) => (.ok (some chatMessageArray), s2)

/-- The argument of `getAdminMessages`: left out, one name, or an array of names. -/
inductive AdminArgument
  | absent
  | name (adminName : String)
  | names (adminNames : List String)
  deriving DecidableEq, Repr

/-- `getAdminMessages` (lines 102-115): the default of the parameter, the wrapping of a
single string, and the loop that pushes the array of every name the author index has. -/
def getAdminMessages (adminNames : AdminArgument) (s : State) : List (List Ref) :=
  let adminNames : List String :=
    match adminNames with
    | .absent => s.adminNames
    | .name adminName => [adminName]
    | .names adminNames => adminNames
  adminNames.foldl
    (fun workingArray adminName =>
      if mapHas s.authorMap adminName then
        workingArray ++ [(mapGet s.authorMap adminName).getD []]
      else workingArray)
    []

/-! ## Polling -/

/-- The timer queue around `parseAllMessages`: every timeout it schedules fires once and
calls it again.  `page k` is what `document.querySelector` finds during the call that
raises `parseAttempts` to `k`.  The outcome is that of the last call made. -/
def runAttempts (page : Nat → Option (List HTMLLIElement)) :
    Nat → State → Except JsError (Option (List Ref)) × State
  | 0, s => (.ok none, s)
  | fuel + 1, s =>
    let out := parseAllMessages (page (s.parseAttempts + 1)) s
    if s.timeouts.length < out.2.timeouts.length then runAttempts page fuel out.2 else out

/-! ## Snapshots -/

/-- `reply.id` inside the instance `toJSON`: the id of a message, `undefined` for a
number, a `TypeError` for `undefined`. -/
def replyId (s : State) : Reply → Except JsError Reply
  | .message r =>
    match (s.deref r).id with
    | some n => .ok (.id n)
    | none => .ok .undefined
  | .id _ => .ok .undefined
  | .undefined => .error .TypeError

/-- `this.replies.map((reply) => reply.id)`. -/
def replyIds (s : State) : List Reply → Except JsError (List Reply)
  | [] => .ok []
  | reply :: rest =>
    match replyId s reply with
    | .error e => .error e
    | .ok i =>
      match replyIds s rest with
      | .error e => .error e
      | .ok is => .ok (i :: is)

/-- The instance `toJSON` (lines 236-246). -/
def ChatMessage.toJSON (this : ChatMessage) (s : State) : Except JsError MessageData :=
  match replyIds s this.replies with
  | .error e => .error e
  | .ok replyIdArray =>
    .ok { author := this.author, id := this.id, isAdmin := this.isAdmin,
          message := this.message, replies := replyIdArray, timestamp := this.timestamp }

/-- The comparator of line 167, `a[1].id - b[1].id`: `a[1]` is an array, which has no
`id`, and `undefined - undefined` is `NaN` (`none`). -/
def compareAuthorEntries (_a _b : String × List Ref) : Option Int :=
  none

/-- `Array.prototype.sort` with a comparator: a stable sort in which a result of `NaN`
counts as `+0`. -/
def jsSort {α : Type} (compare : α → α → Option Int) (l : List α) : List α :=
  l.insertionSort (fun a b => (compare a b).getD 0 ≤ 0)

/-- The static `toJSON` (lines 166-175).  The message arrays are those of the author
index, holding live instances. -/
def toJSON (s : State) : Snapshot where
  adminNames := s.adminNames
  aurthorLookup :=
    some ((jsSort compareAuthorEntries s.authorMap).map (fun e => (e.1, e.2.map Entry.live)))
  myShortName := s.myShortName
  timeStampOptions := s.timeStampOptions
  totalMessageCount := s.totalMessageCount

/-- What `JSON.stringify` makes of one array element: an instance is replaced by the
result of its `toJSON`. -/
def stringifyEntry (s : State) : Entry → Except JsError Entry
  | .live r => (ChatMessage.toJSON (s.deref r) s).map Entry.object
  | e => .ok e

/-- `stringifyEntry` along an array. -/
def stringifyEntries (s : State) : List Entry → Except JsError (List Entry)
  | [] => .ok []
  | e :: rest =>
    match stringifyEntry s e with
    | .error err => .error err
    | .ok e1 =>
      match stringifyEntries s rest with
      | .error err => .error err
      | .ok rest1 => .ok (e1 :: rest1)

/-- `stringifyEntries` along the author entries. -/
def stringifyLookup (s : State) :
    List (String × List Entry) → Except JsError (List (String × List Entry))
  | [] => .ok []
  | (author, messages) :: rest =>
    match stringifyEntries s messages with
    | .error err => .error err
    | .ok messages1 =>
      match stringifyLookup s rest with
      | .error err => .error err
      | .ok rest1 => .ok ((author, messages1) :: rest1)

/-- The snapshot as it comes back from `JSON.parse(JSON.stringify(snapshot))`. -/
def throughJSON (s : State) (snapshot : Snapshot) : Except JsError Snapshot :=
  match snapshot.aurthorLookup with
  | none => .ok snapshot
  | some lookup =>
    match stringifyLookup s lookup with
    | .error err => .error err
    | .ok lookup1 => .ok { snapshot with aurthorLookup := some lookup1 }

/-- `JSON.parse(message)` at line 82.  `JSON.parse` turns its argument into a string
first; an object becomes `[object Object]`, which is not JSON.  For a string the host
parser `parseMessage` decides. -/
def parseEntry (parseMessage : String → Option MessageData) : Entry → Except JsError MessageData
  | .live _ => .error .SyntaxError
  | .object _ => .error .SyntaxError
  | .text t =>
    match parseMessage t with
    | none => .error .SyntaxError
    | some o => .ok o

/-- The inner `map` of lines 81-85.  `workingArray` is written and never read. -/
def fromMessages (parseMessage : String → Option MessageData) :
    List Entry → List Ref → State → Except JsError (List Ref) × State
  | [], messages, s => (.ok messages, s)
  | message :: rest, messages, s =>
    match parseEntry parseMessage message with
    | .error e => (.error e, s)
    | .ok data =>
      match construct (.object data) s with
      | (.error e, s1) => (.error e, s1)
      | (.ok chatMessage, s1) => fromMessages parseMessage rest (messages ++ [chatMessage]) s1

/-- The outer `map` of lines 79-87.  Its callback has a block body without `return`, so
the array it builds holds `undefined` once per author entry; only the count is kept. -/
def fromAuthors (parseMessage : String → Option MessageData) :
    List (String × List Entry) → Nat → State → Except JsError Nat × State
  | [], count, s => (.ok count, s)
  | authorEntry :: rest, count, s =>
    let author := authorEntry.1
    match fromMessages parseMessage authorEntry.2 [] s with
    | (.error e, s1) => (.error e, s1)
    | (.ok messages, s1) =>
      fromAuthors parseMessage rest (count + 1)
        { s1 with authorMap := mapSet s1.authorMap author messages }

/-- The argument of `from`. -/
inductive FromInput
  | undefined
  | null
  | string (text : String)
  | object (snapshot : Snapshot)
  deriving DecidableEq, Repr

/-- `from` (lines 58-99).  `parseSnapshot` and `parseMessage` are the host `JSON.parse` on
the outer text and on a message text; for the outer text `none` is a `SyntaxError` and
`some none` is the JSON value `null`.

After the static fields are overwritten and the author entries rebuilt, `flat` and
`sort` leave the array of `undefined` as it is (`sort` moves `undefined` to the end
without calling the comparator).  The loop of line 88 then tests
`index < totalMessageCount`: the bare name is not in scope (the counter is the static
property `ChatMessage.totalMessageCount`), so the first test raises a `ReferenceError`
and neither the loop body nor `return messageArray` is reached. -/
def fromObject (parseSnapshot : String → Option (Option Snapshot))
    (parseMessage : String → Option MessageData)
    (messageUi : Option (List HTMLLIElement)) (object : FromInput) (s : State) :
    Except JsError (Option (List Ref)) × State :=
  let object : Option Snapshot :=
    match object with
    | .string text =>
      match parseSnapshot text with
      | some parsed => parsed
      | none => none
    | .undefined => none
    | .null => none
    | .object snapshot => some snapshot
  match object with
  | none => parseAllMessages messageUi s
  | some object =>
    let s1 := { s with adminNames := object.adminNames, myShortName := object.myShortName,
                       timeStampOptions := object.timeStampOptions,
                       totalMessageCount := object.totalMessageCount, authorMap := [] }
    match object.aurthorLookup with
    | none => (.error .TypeError, s1)
    | some aurthorLookup =>
      match fromAuthors parseMessage aurthorLookup 0 s1 with
      | (.error e, s2) => (.error e, s2)
      | (.ok _, s2) => (.error .ReferenceError, s2)

/-! ## Auxiliary definitions for the statements and proofs -/

/-- The roster after `parseHtmlLiElement` has looked at one element. -/
def rosterAfter (e : HTMLLIElement) (names : List String) : List String :=
  if e.isAdmin then (if e.author ∉ names then names ++ [e.author] else names) else names

/-- The instance a successful constructor call leaves in the heap for a list element. -/
def newMessage (e : HTMLLIElement) (timestamp : String) (id : Nat) : ChatMessage :=
  { replies := [], author := e.author, isAdmin := e.isAdmin, message := e.message,
    timestamp := timestamp, id := some id }

/-- The author index after `addMessage` of a message by `author`. -/
def pushAuthor (m : List (String × List Ref)) (author : String) (r : Ref) :
    List (String × List Ref) :=
  mapSet m author ((if mapHas m author then (mapGet m author).getD [] else []) ++ [r])

/-- The state after a successful constructor call on a list element. -/
def afterConstruct (e : HTMLLIElement) (timestamp : String) (s : State) : State :=
  { s with adminNames := rosterAfter e s.adminNames,
           authorMap := pushAuthor s.authorMap e.author s.heap.length,
           totalMessageCount := s.totalMessageCount + 1,
           heap := s.heap ++ [newMessage e timestamp s.totalMessageCount] }

/-- The timestamp the pattern finds in an element (empty when it finds none). -/
def timestampOf (e : HTMLLIElement) : String :=
  (matchTimestamp e.localTimeScript).getD ""

/-- One successful turn of the ingest loop. -/
def ingestStep (s : State) (e : HTMLLIElement) : State :=
  afterConstruct e (timestampOf e) s

/-- The instances a run of successful turns appends to the heap. -/
def freshMessages (count : Nat) (records : List HTMLLIElement) : List ChatMessage :=
  List.zipWith (fun e id => newMessage e (timestampOf e) id) records
    (List.range' count records.length)

/-- The array `getAuthorMessages` reads from an author index. -/
def lookup (m : List (String × List Ref)) (author : String) : List Ref :=
  if mapHas m author then (mapGet m author).getD [] else []

/-- Every reference an author index holds, in iteration order. -/
def indexed (m : List (String × List Ref)) : List Ref :=
  (m.map Prod.snd).flatten

/-! ### Sample inputs -/

/-- A script text in which the pattern finds a timestamp. -/
def sampleScript : String := "var timestamp = \"2024-01-02T03:04:05Z\";"

/-- The record `A: hello`. -/
def recordA : HTMLLIElement := ⟨"A", false, "hello", sampleScript⟩

/-- The record `B: @A hi`. -/
def recordB : HTMLLIElement := ⟨"B", false, "@A hi", sampleScript⟩

/-- An admin-flagged record by `Z` whose script text holds no timestamp. -/
def recordBad : HTMLLIElement := ⟨"Z", true, "oops", "var other = 1;"⟩

/-- An admin-flagged record by `M`. -/
def recordAdmin : HTMLLIElement := ⟨"M", true, "notice", sampleScript⟩

/-- The state holding the single message of `recordA`. -/
def oneMessageState : State :=
  (ingestLoop [recordA] [] State.initial).2

/-- The snapshot of `oneMessageState` after a trip through JSON text. -/
def oneMessageSnapshot : Snapshot where
  adminNames := []
  aurthorLookup := some
    [("A", [.object { author := "A", id := some 0, isAdmin := false, message := "hello",
                      replies := [], timestamp := "2024-01-02T03:04:05Z" }])]
  myShortName := none
  timeStampOptions := State.initial.timeStampOptions
  totalMessageCount := 1

/-- The plain objects a snapshot lists as messages (a string counts through the parser). -/
def snapshotMessages (parseMessage : String → Option MessageData) (snapshot : Snapshot) :
    List MessageData :=
  ((snapshot.aurthorLookup.getD []).map Prod.snd).flatten.filterMap
    (fun entry =>
      match entry with
      | .live _ => none
      | .object o => some o
      | .text t => parseMessage t)

/-- Some message of the snapshot lists a reply id that no message of the snapshot has. -/
def hasDanglingReply (parseMessage : String → Option MessageData) (snapshot : Snapshot) : Prop :=
  ∃ o ∈ snapshotMessages parseMessage snapshot, ∃ n, Reply.id n ∈ o.replies ∧
    ∀ target ∈ snapshotMessages parseMessage snapshot, target.id ≠ some n

/-- The snapshot with messages 0, 1, 2, the first of which lists reply id 5. -/
def danglingSnapshot : Snapshot where
  adminNames := []
  aurthorLookup := some
    [("A", [.object { author := "A", id := some 0, isAdmin := false, message := "hello",
                      replies := [.id 5], timestamp := "2024-01-02T03:04:05Z" },
            .object { author := "A", id := some 2, isAdmin := false, message := "again",
                      replies := [], timestamp := "2024-01-02T03:04:07Z" }]),
     ("B", [.object { author := "B", id := some 1, isAdmin := false, message := "@A hi",
                      replies := [], timestamp := "2024-01-02T03:04:06Z" }])]
  myShortName := none
  timeStampOptions := State.initial.timeStampOptions
  totalMessageCount := 3

/-- The delays of the first `j` retries counted from attempt `a + 1`. -/
def scaledDelays (a j : Nat) : List Nat :=
  (List.range j).map (fun i => (a + i + 1) * 250)

/-- The page on which the container appears during the third attempt. -/
def pageOnThird : Nat → Option (List HTMLLIElement) :=
  fun k => if k < 3 then none else some [recordB, recordA]

/-! ### Timestamp shapes, admin requests and reachable states -/

/-- A group of exactly `n` digits. -/
@[reducible] def isDigits (n : Nat) (cs : List Char) : Prop :=
  cs.length = n ∧ ∀ c ∈ cs, c.isDigit = true

/-- The text `YYYY-MM-DDTHH:mm:` put together from its digit groups. -/
def dateTimeHead (year month day hour minute : List Char) : List Char :=
  year ++ '-' :: (month ++ '-' :: (day ++ 'T' :: (hour ++ ':' :: (minute ++ [':']))))

/-- A script text that holds `var timestamp = "<ts>"` between two arbitrary texts. -/
def embedTimestamp (before ts after : List Char) : String :=
  String.mk (before ++ ("var timestamp = \"".toList ++ (ts ++ '"' :: after)))

/-- A character the class `[\d\.]` accepts. -/
@[reducible] def isDigitOrDot (c : Char) : Prop :=
  c.isDigit = true ∨ c = '.'

/-- The record of the six-digit fraction: `ss.ffffff` takes nine characters. -/
def recordMicroseconds : HTMLLIElement :=
  ⟨"A", false, "hello", "var timestamp = \"2024-01-02T03:04:05.123456Z\";"⟩

/-- A record whose script text assigns the timestamp twice. -/
def recordTwoTimestamps : HTMLLIElement :=
  ⟨"A", false, "hello",
   "var timestamp = \"2024-01-02T03:04:05Z\"; var timestamp = \"2025-06-07T08:09:10Z\";"⟩

/-- A snapshot with an author entry that lists no message. -/
def emptyEntrySnapshot : Snapshot where
  adminNames := ["X"]
  aurthorLookup := some [("X", [])]
  myShortName := none
  timeStampOptions := State.initial.timeStampOptions
  totalMessageCount := 0

/-- The state `from` leaves behind when it is given `emptyEntrySnapshot`. -/
def emptyEntryState : State :=
  (fromObject (fun _ => none) (fun _ => none) none (.object emptyEntrySnapshot) State.initial).2

/-- The record `B: @A @A hi`, which names `A` twice. -/
def recordTwice : HTMLLIElement := ⟨"B", false, "@A @A hi", sampleScript⟩

/-- The state after `A: hello` and `B: @A hi` in which the message of `B` has been added
to the replies of the message of `A` by `addReply`. -/
def linkedState : State :=
  addReply 0 1 (ingestLoop [recordA, recordB] [] State.initial).2

/-- A plain message object whose replies are the bare ids 5 and 7. -/
def unresolvedData : MessageData where
  author := "A"
  id := some 0
  isAdmin := false
  message := "hello"
  replies := [.id 5, .id 7]
  timestamp := "2024-01-02T03:04:05Z"

/-- The state after the constructor was given `unresolvedData`, as `from` gives it the
parsed messages of a snapshot. -/
def unresolvedState : State :=
  (construct (.object unresolvedData) State.initial).2

/-- The states reached from the initial one by ingesting page records: by single
constructor calls on list elements and by whole calls of `parseAllMessages`, whether
they return or throw. -/
inductive Reachable : State → Prop
  | initial : Reachable State.initial
  | byConstructor (s : State) (e : HTMLLIElement) :
      Reachable s → Reachable (construct (.li e) s).2
  | byParseAllMessages (s : State) (messageUi : Option (List HTMLLIElement)) :
      Reachable s → Reachable (parseAllMessages messageUi s).2

/-- What page ingestion maintains: the heap holds one message per count, message `r` has
id `r`, every array of the author index is non-empty, ascending and within the heap, the
first elements of the arrays ascend along the index, and all replies are empty. -/
structure Ingested (s : State) : Prop where
  count : s.heap.length = s.totalMessageCount
  ids : ∀ r, r < s.heap.length → (s.deref r).id = some r
  arrays : ∀ e ∈ s.authorMap, e.2 ≠ [] ∧ e.2.Pairwise (· < ·) ∧ ∀ r ∈ e.2, r < s.heap.length
  firsts : (s.authorMap.map (fun e => e.2.headD 0)).Pairwise (· < ·)
  replies : ∀ r, (s.deref r).replies = []

/-- The id a snapshot entry carries (0 when it has none). -/
def entryId (s : State) : Entry → Nat
  | .live r => ((s.deref r).id).getD 0
  | .object o => o.id.getD 0
  | .text _ => 0

/-- The id of a reply that is a message instance; `none` for anything else. -/
def replyIdOf (s : State) : Reply → Option Nat
  | .message q => (s.deref q).id
  | _ => none

/-- The record `A: @A note to self`, which names its own author. -/
def recordSelf : HTMLLIElement := ⟨"A", false, "@A note to self", sampleScript⟩

/-- The state after the page with `A`, `B`, `A` (oldest first) has been ingested. -/
def threeMessageState : State :=
  (parseAllMessages (some [recordA, recordB, recordA]) State.initial).2

/-! ## Theorems

First the closed form of one constructor call and of the ingest loop, then the author
index, then the claims in order. -/

theorem mentionScan_eq (message : String) (this : Ref) (s : State) :
    mentionScan message this s = (.ok (), s) := by
  rfl

theorem modify_at_length {α : Type} (f : α → α) (l : List α) (a : α) :
    List.modify f l.length (l ++ [a]) = l ++ [f a] := by
  induction l with
  | nil => rfl
  | cons x xs ih => simpa [List.modify_succ_cons] using ih

theorem getD_at_length {α : Type} (l : List α) (a d : α) :
    (l ++ [a]).getD l.length d = a := by
  rw [List.getD_append_right _ _ _ _ (le_refl _)]
  simp

theorem parseHtmlLiElement_state (e : HTMLLIElement) (s : State) :
    (parseHtmlLiElement e s).2 = { s with adminNames := rosterAfter e s.adminNames } := by
  unfold parseHtmlLiElement rosterAfter
  cases matchTimestamp e.localTimeScript <;> simp <;> split_ifs <;> rfl

theorem parseHtmlLiElement_result (e : HTMLLIElement) (s : State) :
    (parseHtmlLiElement e s).1 =
      match matchTimestamp e.localTimeScript with
      | none => .error .TypeError
      | some timestamp =>
        .ok { author := e.author, id := none, isAdmin := e.isAdmin, message := e.message,
              replies := [], timestamp := timestamp } := by
  unfold parseHtmlLiElement
  cases matchTimestamp e.localTimeScript <;> rfl

theorem construct_li_ok (e : HTMLLIElement) (s : State) (timestamp : String)
    (h : matchTimestamp e.localTimeScript = some timestamp) :
    construct (.li e) s = (.ok s.heap.length, afterConstruct e timestamp s) := by
  have h1 := parseHtmlLiElement_state e s
  have h2 := parseHtmlLiElement_result e s
  rw [h] at h2
  simp only [construct]
  rcases hp : parseHtmlLiElement e s with ⟨res, s1⟩
  rw [hp] at h1 h2
  simp only at h1 h2
  subst h1 h2
  simp only [mentionScan_eq, addMessage, setId, State.deref, getD_at_length, modify_at_length,
    getAuthorMessages, afterConstruct, pushAuthor, newMessage]

theorem construct_li_error (e : HTMLLIElement) (s : State)
    (h : matchTimestamp e.localTimeScript = none) :
    construct (.li e) s = (.error .TypeError, { s with adminNames := rosterAfter e s.adminNames }) := by
  have h1 := parseHtmlLiElement_state e s
  have h2 := parseHtmlLiElement_result e s
  rw [h] at h2
  simp only [construct]
  rcases hp : parseHtmlLiElement e s with ⟨res, s1⟩
  rw [hp] at h1 h2
  simp only at h1 h2
  subst h1 h2
  rfl

theorem construct_li_parseable (e : HTMLLIElement) (s : State)
    (h : (matchTimestamp e.localTimeScript).isSome = true) :
    construct (.li e) s = (.ok s.heap.length, ingestStep s e) := by
  obtain ⟨t, ht⟩ := Option.isSome_iff_exists.mp h
  rw [construct_li_ok e s t ht, ingestStep, timestampOf, ht]
  rfl

theorem ingestLoop_ok (records : List HTMLLIElement) (acc : List Ref) (s : State)
    (h : ∀ e ∈ records, (matchTimestamp e.localTimeScript).isSome = true) :
    ingestLoop records acc s =
      (.ok (acc ++ List.range' s.heap.length records.length), records.foldl ingestStep s) := by
  induction records generalizing acc s with
  | nil => simp [ingestLoop]
  | cons e rest ih =>
    have he := h e (List.mem_cons_self _ _)
    have hrest : ∀ x ∈ rest, (matchTimestamp x.localTimeScript).isSome = true :=
      fun x hx => h x (List.mem_cons_of_mem _ hx)
    rw [ingestLoop, construct_li_parseable e s he]
    simp only
    rw [ih _ _ hrest]
    simp [ingestStep, afterConstruct, List.range'_succ]

theorem foldl_ingestStep_heap (records : List HTMLLIElement) (s : State) :
    (records.foldl ingestStep s).heap = s.heap ++ freshMessages s.totalMessageCount records := by
  induction records generalizing s with
  | nil => simp [freshMessages]
  | cons e rest ih =>
    rw [List.foldl_cons, ih]
    simp [ingestStep, afterConstruct, freshMessages, List.range'_succ]

theorem foldl_ingestStep_count (records : List HTMLLIElement) (s : State) :
    (records.foldl ingestStep s).totalMessageCount = s.totalMessageCount + records.length := by
  induction records generalizing s with
  | nil => simp
  | cons e rest ih =>
    rw [List.foldl_cons, ih]
    simp [ingestStep, afterConstruct]
    omega

theorem foldl_ingestStep_parseAttempts (records : List HTMLLIElement) (s : State) :
    (records.foldl ingestStep s).parseAttempts = s.parseAttempts := by
  induction records generalizing s with
  | nil => rfl
  | cons e rest ih =>
    rw [List.foldl_cons, ih]
    rfl

theorem freshMessages_length (count : Nat) (records : List HTMLLIElement) :
    (freshMessages count records).length = records.length := by
  simp [freshMessages]

theorem deref_fresh (records : List HTMLLIElement) (s : State) (k : Nat) (hk : k < records.length) :
    (records.foldl ingestStep s).deref (s.heap.length + k) =
      newMessage (records.get ⟨k, hk⟩) (timestampOf (records.get ⟨k, hk⟩)) (s.totalMessageCount + k) := by
  rw [State.deref, foldl_ingestStep_heap, List.getD_append_right _ _ _ _ (by omega)]
  simp only [Nat.add_sub_cancel_left]
  rw [List.getD_eq_getElem _ _ (by simpa [freshMessages_length] using hk)]
  simp [freshMessages]

theorem deref_old (records : List HTMLLIElement) (s : State) (r : Nat) (hr : r < s.heap.length) :
    (records.foldl ingestStep s).deref r = s.deref r := by
  rw [State.deref, foldl_ingestStep_heap, List.getD_append _ _ _ _ hr, State.deref]

theorem lookup_nil (a : String) : lookup [] a = [] := by
  simp [lookup, mapHas]

theorem lookup_cons (e : String × List Ref) (rest : List (String × List Ref)) (a : String) :
    lookup (e :: rest) a = if e.1 = a then e.2 else lookup rest a := by
  by_cases h : e.1 = a
  · simp [lookup, mapHas, mapGet, h]
  · have hb : (e.1 == a) = false := by simpa using h
    simp only [lookup, mapHas, mapGet, List.any_cons, hb, Bool.false_or, if_neg h]

theorem pushAuthor_nil (a : String) (r : Ref) : pushAuthor [] a r = [(a, [r])] := by
  simp [pushAuthor, mapHas, mapSet]

theorem pushAuthor_cons (e : String × List Ref) (rest : List (String × List Ref)) (a : String)
    (r : Ref) :
    pushAuthor (e :: rest) a r =
      if e.1 = a then (a, e.2 ++ [r]) :: rest else e :: pushAuthor rest a r := by
  by_cases h : e.1 = a
  · simp [pushAuthor, mapHas, mapGet, mapSet, h]
  · have hb : (e.1 == a) = false := by simpa using h
    simp only [pushAuthor, mapHas, mapGet, mapSet, List.any_cons, hb, Bool.false_or, if_neg h]

theorem lookup_pushAuthor (m : List (String × List Ref)) (a b : String) (r : Ref) :
    lookup (pushAuthor m a r) b = if a = b then lookup m b ++ [r] else lookup m b := by
  induction m with
  | nil =>
    rw [pushAuthor_nil, lookup_cons, lookup_nil]
    by_cases h : a = b <;> simp [h]
  | cons e rest ih =>
    rw [pushAuthor_cons]
    by_cases h : e.1 = a
    · rw [if_pos h, lookup_cons, lookup_cons]
      by_cases hb : a = b
      · simp [hb, h.trans hb]
      · have : ¬ e.1 = b := fun hh => hb (h.symm.trans hh)
        simp [hb, this]
    · rw [if_neg h, lookup_cons, lookup_cons, ih]
      by_cases hb : a = b
      · have : ¬ e.1 = b := fun hh => h (hh.trans hb.symm)
        simp [hb, this]
      · simp [hb]

theorem indexed_pushAuthor (m : List (String × List Ref)) (a : String) (r : Ref) :
    (indexed (pushAuthor m a r)).Perm (indexed m ++ [r]) := by
  induction m with
  | nil => simp [pushAuthor_nil, indexed]
  | cons e rest ih =>
    rw [pushAuthor_cons]
    by_cases h : e.1 = a
    · rw [if_pos h]
      simp only [indexed, List.map_cons, List.flatten_cons, List.append_assoc]
      exact List.Perm.append_left _ List.perm_append_comm
    · rw [if_neg h]
      simp only [indexed, List.map_cons, List.flatten_cons, List.append_assoc]
      exact List.Perm.append_left _ ih

theorem getAuthorMessages_eq_lookup (a : String) (s : State) :
    getAuthorMessages a s = lookup s.authorMap a := rfl

theorem ingestStep_heap_length (s : State) (e : HTMLLIElement) :
    (ingestStep s e).heap.length = s.heap.length + 1 := by
  simp [ingestStep, afterConstruct]

theorem foldl_ingestStep_indexed (records : List HTMLLIElement) (s : State) :
    (indexed (records.foldl ingestStep s).authorMap).Perm
      (indexed s.authorMap ++ List.range' s.heap.length records.length) := by
  induction records generalizing s with
  | nil => simp
  | cons e rest ih =>
    rw [List.foldl_cons]
    refine (ih (ingestStep s e)).trans ?_
    rw [ingestStep_heap_length, List.length_cons, List.range'_succ]
    have h1 : (indexed (ingestStep s e).authorMap).Perm (indexed s.authorMap ++ [s.heap.length]) :=
      indexed_pushAuthor _ _ _
    simpa using h1.append_right (List.range' (s.heap.length + 1) rest.length)

theorem foldl_ingestStep_lookup (records : List HTMLLIElement) (s : State) (a : String) :
    lookup (records.foldl ingestStep s).authorMap a =
      lookup s.authorMap a ++
        (List.range' s.heap.length records.length).filter
          (fun r => ((records.foldl ingestStep s).deref r).author = a) := by
  induction records generalizing s with
  | nil => simp
  | cons e rest ih =>
    rw [List.foldl_cons, ih (ingestStep s e), ingestStep_heap_length, List.length_cons,
      List.range'_succ, List.filter_cons]
    have hd : ((rest.foldl ingestStep (ingestStep s e)).deref s.heap.length).author = e.author := by
      rw [deref_old _ _ _ (by rw [ingestStep_heap_length]; omega)]
      simp [State.deref, ingestStep, afterConstruct, getD_at_length, newMessage]
    have hl : lookup (ingestStep s e).authorMap a =
        if e.author = a then lookup s.authorMap a ++ [s.heap.length] else lookup s.authorMap a :=
      lookup_pushAuthor _ _ _ _
    rw [hl, hd]
    by_cases h : e.author = a <;> simp [h]

theorem map_fresh_id (records : List HTMLLIElement) (s : State) :
    (List.range' s.heap.length records.length).map
        (fun r => ((records.foldl ingestStep s).deref r).id) =
      (List.range records.length).map (fun k => some (s.totalMessageCount + k)) := by
  rw [List.range'_eq_map_range, List.map_map]
  apply List.map_congr_left
  intro k hk
  have hk1 : k < records.length := List.mem_range.mp hk
  simp only [Function.comp_apply]
  rw [deref_fresh records s k hk1]
  rfl

theorem map_fresh_fields (records : List HTMLLIElement) (s : State) :
    (List.range' s.heap.length records.length).map
        (fun r => (((records.foldl ingestStep s).deref r).author,
          ((records.foldl ingestStep s).deref r).isAdmin,
          ((records.foldl ingestStep s).deref r).message)) =
      records.map (fun e => (e.author, e.isAdmin, e.message)) := by
  apply List.ext_getElem
  · simp
  · intro k h1 h2
    have hk : k < records.length := by simpa using h2
    simp only [List.getElem_map, List.getElem_range']
    rw [Nat.one_mul, deref_fresh records s k hk]
    rfl

/-- C1: from a store whose counter is 0 and whose author index is empty, a list of page
records that all carry a timestamp is ingested in full by successive constructor calls;
the k-th message gets id k, the counter ends at the number of records, and the ids held
in the author index are a rearrangement of 0, ..., n-1 (no gap, no duplicate). -/
theorem ids_are_consecutive (records : List HTMLLIElement) (s : State)
    (hcount : s.totalMessageCount = 0) (hmap : s.authorMap = [])
    (hparse : ∀ e ∈ records, (matchTimestamp e.localTimeScript).isSome = true) :
    ∃ messages : List Ref,
      (ingestLoop records [] s).1 = .ok messages ∧
      messages.length = records.length ∧
      (∀ k (hk : k < messages.length),
        ((ingestLoop records [] s).2.deref (messages.get ⟨k, hk⟩)).id = some k) ∧
      (ingestLoop records [] s).2.totalMessageCount = records.length ∧
      List.Perm
        (((ingestLoop records [] s).2.authorMap.map Prod.snd).flatten.map
          (fun r => ((ingestLoop records [] s).2.deref r).id))
        ((List.range records.length).map some) := by
  rw [ingestLoop_ok records [] s hparse]
  refine ⟨List.range' s.heap.length records.length, by simp, by simp, ?_, ?_, ?_⟩
  · intro k hk
    have hk1 : k < records.length := by simpa using hk
    simp only [List.get_eq_getElem, List.getElem_range', Nat.one_mul]
    rw [deref_fresh records s k hk1, hcount]
    simp [newMessage]
  · simp only
    rw [foldl_ingestStep_count, hcount, Nat.zero_add]
  · simp only
    have hp := foldl_ingestStep_indexed records s
    rw [hmap] at hp
    have hp1 := hp.map (fun r => ((records.foldl ingestStep s).deref r).id)
    have hm := map_fresh_id records s
    rw [hcount] at hm
    simp only [indexed, List.map_nil, List.flatten_nil, List.nil_append] at hp1
    rw [hm] at hp1
    simpa using hp1

/-- C2: after the same kind of ingestion, the messages keep the authors of their
records, `getAuthorMessages a` is the list of ingested messages filtered by author `a`
(so in ingestion order), and it is empty for a name no record carries. -/
theorem getAuthorMessages_is_subsequence (records : List HTMLLIElement) (s : State)
    (hmap : s.authorMap = [])
    (hparse : ∀ e ∈ records, (matchTimestamp e.localTimeScript).isSome = true)
    (a : String) :
    ∃ messages : List Ref,
      (ingestLoop records [] s).1 = .ok messages ∧
      messages.map (fun r => (((ingestLoop records [] s).2.deref r).author,
          ((ingestLoop records [] s).2.deref r).isAdmin,
          ((ingestLoop records [] s).2.deref r).message)) =
        records.map (fun e => (e.author, e.isAdmin, e.message)) ∧
      getAuthorMessages a (ingestLoop records [] s).2 =
        messages.filter (fun r => ((ingestLoop records [] s).2.deref r).author = a) ∧
      ((∀ e ∈ records, e.author ≠ a) → getAuthorMessages a (ingestLoop records [] s).2 = []) := by
  rw [ingestLoop_ok records [] s hparse]
  have hl := foldl_ingestStep_lookup records s a
  rw [hmap, lookup_nil, List.nil_append] at hl
  refine ⟨List.range' s.heap.length records.length, by simp, ?_, ?_, ?_⟩
  · exact map_fresh_fields records s
  · simp only
    rw [getAuthorMessages_eq_lookup, hl]
  · intro hne
    simp only
    rw [getAuthorMessages_eq_lookup, hl, List.filter_eq_nil_iff]
    intro r hr
    obtain ⟨k, hk, rfl⟩ : ∃ k, k < records.length ∧ r = s.heap.length + k := by
      obtain ⟨h1, h2⟩ := List.mem_range'_1.mp hr
      exact ⟨r - s.heap.length, by omega, (Nat.add_sub_cancel' h1).symm⟩
    rw [deref_fresh records s k hk]
    simpa [newMessage] using hne _ (List.get_mem records k hk)

/-- Three records into the initial state: the counter ends at 3. -/
theorem ids_are_consecutive_witness :
    (ingestLoop [recordA, recordB, recordA] [] State.initial).2.totalMessageCount = 3 := by
  obtain ⟨_, _, _, _, h, _⟩ :=
    ids_are_consecutive [recordA, recordB, recordA] State.initial rfl rfl (by decide)
  exact h

/-- Three records into the initial state: a name none of them carries has no messages. -/
theorem getAuthorMessages_is_subsequence_witness :
    getAuthorMessages "nobody" (ingestLoop [recordA, recordB, recordA] [] State.initial).2 = [] := by
  obtain ⟨_, _, _, _, h⟩ :=
    getAuthorMessages_is_subsequence [recordA, recordB, recordA] State.initial rfl (by decide)
      "nobody"
  exact h (by decide)

theorem construct_li_cases (e : HTMLLIElement) (s : State) :
    construct (.li e) s = (.ok s.heap.length, ingestStep s e) ∨
    construct (.li e) s =
      (.error .TypeError, { s with adminNames := rosterAfter e s.adminNames }) := by
  cases h : matchTimestamp e.localTimeScript with
  | none => exact Or.inr (construct_li_error e s h)
  | some t => exact Or.inl (construct_li_parseable e s (by simp [h]))

/-- C3: the mention scan links nothing.  After `A: hello` and `B: @A hi` the replies of
the message of A are empty, not the one-element list holding the message of B; and no
constructor call on a list element changes the replies of an existing message. -/
theorem mention_fanout_missing :
    (ingestLoop [recordA, recordB] [] State.initial).1 = .ok [0, 1] ∧
    ((ingestLoop [recordA, recordB] [] State.initial).2.deref 0).author = "A" ∧
    ((ingestLoop [recordA, recordB] [] State.initial).2.deref 1).message = "@A hi" ∧
    ((ingestLoop [recordA, recordB] [] State.initial).2.deref 0).replies = [] ∧
    ((ingestLoop [recordA, recordB] [] State.initial).2.deref 0).replies ≠ [.message 1] ∧
    (∀ (e : HTMLLIElement) (s : State) (r : Ref), r < s.heap.length →
      ((construct (.li e) s).2.deref r).replies = (s.deref r).replies) := by
  refine ⟨by decide, by decide, by decide, by decide, by decide, ?_⟩
  intro e s r hr
  rcases construct_li_cases e s with h | h
  · rw [h]
    simp only [State.deref, ingestStep, afterConstruct]
    rw [List.getD_append _ _ _ _ hr]
  · rw [h]
    rfl

theorem fromObject_object_fails (parseSnapshot : String → Option (Option Snapshot))
    (parseMessage : String → Option MessageData) (messageUi : Option (List HTMLLIElement))
    (snapshot : Snapshot) (s : State) :
    ∃ e, (fromObject parseSnapshot parseMessage messageUi (.object snapshot) s).1 = .error e := by
  simp only [fromObject]
  cases snapshot.aurthorLookup with
  | none => exact ⟨_, rfl⟩
  | some lookup =>
    simp only
    rcases fromAuthors parseMessage lookup 0 _ with ⟨res, s2⟩
    cases res with
    | error e => exact ⟨_, rfl⟩
    | ok n => exact ⟨_, rfl⟩

theorem fromObject_string_fails (parseSnapshot : String → Option (Option Snapshot))
    (parseMessage : String → Option MessageData) (messageUi : Option (List HTMLLIElement))
    (text : String) (snapshot : Snapshot) (s : State)
    (h : parseSnapshot text = some (some snapshot)) :
    ∃ e, (fromObject parseSnapshot parseMessage messageUi (.string text) s).1 = .error e := by
  have := fromObject_object_fails parseSnapshot parseMessage messageUi snapshot s
  simpa only [fromObject, h] using this

/-- C4: restoring never succeeds.  For every store the snapshot of the static `toJSON`
makes `from` raise an error, given as it is, after a trip through JSON text, or as the
JSON text itself; for the store holding one message the error is the `SyntaxError` of
`JSON.parse` on a message that is an object, and for the empty store it is the
`ReferenceError` of the bare `totalMessageCount`. -/
theorem roundtrip_fails :
    (∀ (parseSnapshot : String → Option (Option Snapshot))
        (parseMessage : String → Option MessageData) (messageUi : Option (List HTMLLIElement))
        (s fresh : State),
      (∃ e, (fromObject parseSnapshot parseMessage messageUi (.object (toJSON s)) fresh).1 =
          .error e) ∧
      (∀ snapshot, throughJSON s (toJSON s) = .ok snapshot →
        (∃ e, (fromObject parseSnapshot parseMessage messageUi (.object snapshot) fresh).1 =
          .error e) ∧
        (∀ text, parseSnapshot text = some (some snapshot) →
          ∃ e, (fromObject parseSnapshot parseMessage messageUi (.string text) fresh).1 =
            .error e))) ∧
    (throughJSON oneMessageState (toJSON oneMessageState) = .ok oneMessageSnapshot ∧
      ∀ (parseSnapshot : String → Option (Option Snapshot))
        (parseMessage : String → Option MessageData) (messageUi : Option (List HTMLLIElement)),
        (fromObject parseSnapshot parseMessage messageUi (.object oneMessageSnapshot)
          State.initial).1 = .error .SyntaxError) ∧
    (∀ (parseSnapshot : String → Option (Option Snapshot))
        (parseMessage : String → Option MessageData) (messageUi : Option (List HTMLLIElement)),
      (fromObject parseSnapshot parseMessage messageUi (.object (toJSON State.initial))
        State.initial).1 = .error .ReferenceError) := by
  refine ⟨?_, ?_, ?_⟩
  · intro ps pm ui s fresh
    refine ⟨fromObject_object_fails _ _ _ _ _, fun snapshot _ => ⟨fromObject_object_fails _ _ _ _ _, ?_⟩⟩
    intro text ht
    exact fromObject_string_fails _ _ _ _ _ _ ht
  · refine ⟨by decide, ?_⟩
    intro ps pm ui
    rfl
  · intro ps pm ui
    rfl

/-- C5: a snapshot with a dangling reply id makes `from` raise an error, whether it is
given as an object or as text; no message array comes back. -/
theorem dangling_reply_fails (parseSnapshot : String → Option (Option Snapshot))
    (parseMessage : String → Option MessageData) (messageUi : Option (List HTMLLIElement))
    (snapshot : Snapshot) (s : State)
    (_hdangling : hasDanglingReply parseMessage snapshot) :
    (∃ e, (fromObject parseSnapshot parseMessage messageUi (.object snapshot) s).1 = .error e) ∧
    (∀ text, parseSnapshot text = some (some snapshot) →
      ∃ e, (fromObject parseSnapshot parseMessage messageUi (.string text) s).1 = .error e) ∧
    (∀ messages,
      (fromObject parseSnapshot parseMessage messageUi (.object snapshot) s).1 ≠ .ok messages) := by
  obtain ⟨e, he⟩ := fromObject_object_fails parseSnapshot parseMessage messageUi snapshot s
  refine ⟨⟨e, he⟩, fun text ht => fromObject_string_fails _ _ _ _ _ _ ht, ?_⟩
  intro messages hm
  rw [he] at hm
  cases hm

/-- The snapshot with messages 0, 1, 2 and reply id 5 is refused. -/
theorem dangling_reply_fails_witness :
    hasDanglingReply (fun _ => none) danglingSnapshot ∧
    ∃ e, (fromObject (fun _ => none) (fun _ => none) none (.object danglingSnapshot)
      State.initial).1 = .error e :=
  ⟨⟨_, List.mem_cons_self _ _, 5, List.mem_cons_self _ _, by decide⟩,
   (dangling_reply_fails (fun _ => none) (fun _ => none) none danglingSnapshot State.initial
    ⟨_, List.mem_cons_self _ _, 5, List.mem_cons_self _ _, by decide⟩).1⟩

theorem rosterAfter_nodup (e : HTMLLIElement) (names : List String) (h : names.Nodup) :
    (rosterAfter e names).Nodup := by
  unfold rosterAfter
  by_cases h1 : e.isAdmin = true
  · by_cases h2 : e.author ∈ names
    · simpa [h1, h2] using h
    · rw [if_pos h1, if_pos h2]
      exact List.nodup_append.mpr
        ⟨h, List.nodup_singleton _, by
          intro a ha hb
          rw [List.mem_singleton] at hb
          exact h2 (hb ▸ ha)⟩
  · simpa [h1] using h

theorem rosterAfter_mem (e : HTMLLIElement) (names : List String) (h : e.isAdmin = true) :
    e.author ∈ rosterAfter e names := by
  unfold rosterAfter
  rw [if_pos h]
  by_cases h2 : e.author ∈ names
  · simp [h2]
  · simp [h2]

theorem rosterAfter_subset (e : HTMLLIElement) (names : List String) (a : String)
    (h : a ∈ names) : a ∈ rosterAfter e names := by
  unfold rosterAfter
  split_ifs <;> simp [h]

theorem ingestLoop_roster_nodup (records : List HTMLLIElement) (acc : List Ref) (s : State)
    (h : s.adminNames.Nodup) : (ingestLoop records acc s).2.adminNames.Nodup := by
  induction records generalizing acc s with
  | nil => simpa [ingestLoop] using h
  | cons e rest ih =>
    rw [ingestLoop]
    rcases construct_li_cases e s with hc | hc
    · rw [hc]
      exact ih _ _ (rosterAfter_nodup e _ h)
    · rw [hc]
      exact rosterAfter_nodup e _ h

theorem foldl_ingestStep_roster_subset (records : List HTMLLIElement) (s : State) (a : String)
    (h : a ∈ s.adminNames) : a ∈ (records.foldl ingestStep s).adminNames := by
  induction records generalizing s with
  | nil => simpa using h
  | cons e rest ih =>
    rw [List.foldl_cons]
    exact ih _ (rosterAfter_subset e _ a h)

theorem foldl_ingestStep_roster_mem (records : List HTMLLIElement) (s : State)
    (r : HTMLLIElement) (hr : r ∈ records) (hadmin : r.isAdmin = true) :
    r.author ∈ (records.foldl ingestStep s).adminNames := by
  induction records generalizing s with
  | nil => cases hr
  | cons e rest ih =>
    rw [List.foldl_cons]
    rcases List.mem_cons.mp hr with rfl | hrest
    · exact foldl_ingestStep_roster_subset rest _ _ (rosterAfter_mem r _ hadmin)
    · exact ih _ hrest

theorem ingestLoop_ok_parseable (records : List HTMLLIElement) (acc : List Ref) (s : State)
    (messages : List Ref) (h : (ingestLoop records acc s).1 = .ok messages) :
    ∀ e ∈ records, (matchTimestamp e.localTimeScript).isSome = true := by
  induction records generalizing acc s with
  | nil => simp
  | cons e rest ih =>
    rw [ingestLoop] at h
    cases ht : matchTimestamp e.localTimeScript with
    | none =>
      rw [construct_li_error e s ht] at h
      cases h
    | some t =>
      have he : (matchTimestamp e.localTimeScript).isSome = true := by simp [ht]
      rw [construct_li_parseable e s he] at h
      intro x hx
      rcases List.mem_cons.mp hx with rfl | hrest
      · exact he
      · exact ih _ _ h x hrest

/-- C7: the roster stays free of duplicates.  One `parseHtmlLiElement` keeps a
duplicate-free roster duplicate-free and leaves an admin-flagged author in it; so does a
whole run of the ingest loop, after which every admin-flagged author of an ingested
batch occurs exactly once. -/
theorem admin_roster_is_a_set (e : HTMLLIElement) (records : List HTMLLIElement) (s : State)
    (hnodup : s.adminNames.Nodup) :
    (parseHtmlLiElement e s).2.adminNames.Nodup ∧
    (e.isAdmin = true → e.author ∈ (parseHtmlLiElement e s).2.adminNames) ∧
    (ingestLoop records [] s).2.adminNames.Nodup ∧
    (∀ messages, (ingestLoop records [] s).1 = .ok messages →
      ∀ r ∈ records, r.isAdmin = true →
        (ingestLoop records [] s).2.adminNames.count r.author = 1) := by
  refine ⟨?_, ?_, ingestLoop_roster_nodup records [] s hnodup, ?_⟩
  · rw [parseHtmlLiElement_state]
    exact rosterAfter_nodup e _ hnodup
  · intro h
    rw [parseHtmlLiElement_state]
    exact rosterAfter_mem e _ h
  · intro messages hok r hr hadmin
    apply List.count_eq_one_of_mem (ingestLoop_roster_nodup records [] s hnodup)
    rw [ingestLoop_ok records [] s (ingestLoop_ok_parseable records [] s messages hok)]
    exact foldl_ingestStep_roster_mem records s r hr hadmin

/-- Two admin-flagged records by the same author put the name on the roster once. -/
theorem admin_roster_is_a_set_witness :
    (ingestLoop [recordAdmin, recordA, recordAdmin] [] State.initial).2.adminNames = ["M"] ∧
    (ingestLoop [recordAdmin, recordA, recordAdmin] [] State.initial).2.adminNames.count "M" = 1 :=
  ⟨by decide,
   (admin_roster_is_a_set recordAdmin [recordAdmin, recordA, recordAdmin] State.initial
      (by decide)).2.2.2 [0, 1, 2] (by decide) recordAdmin (by decide) rfl⟩

/-- C8: `addReplies` for a name without messages raises a `ReferenceError` at its first
statement and leaves the state as it was: no replies change and the author index gains
no entry for the name. -/
theorem addReplies_unknown_author_no_effect (name : String) (message : Ref) (s : State)
    (hnone : getAuthorMessages name s = []) :
    (addReplies (some name) message s).1 = .error .ReferenceError ∧
    (addReplies (some name) message s).2 = s ∧
    (∀ r, ((addReplies (some name) message s).2.deref r).replies = (s.deref r).replies) ∧
    (addReplies (some name) message s).2.authorMap = s.authorMap ∧
    getAuthorMessages name (addReplies (some name) message s).2 = [] ∧
    (mapHas s.authorMap name = false →
      mapHas (addReplies (some name) message s).2.authorMap name = false) := by
  refine ⟨rfl, rfl, fun _ => rfl, rfl, hnone, fun h => h⟩

/-- In the state holding one message by `A`, `addReplies` for `nobody` adds no entry. -/
theorem addReplies_unknown_author_no_effect_witness :
    mapHas (addReplies (some "nobody") 0 oneMessageState).2.authorMap "nobody" = false :=
  (addReplies_unknown_author_no_effect "nobody" 0 oneMessageState (by decide)).2.2.2.2.2
    (by decide)

theorem ingestLoop_stops (good rest : List HTMLLIElement) (bad : HTMLLIElement)
    (acc : List Ref) (s : State)
    (hgood : ∀ e ∈ good, (matchTimestamp e.localTimeScript).isSome = true)
    (hbad : matchTimestamp bad.localTimeScript = none) :
    ingestLoop (good ++ bad :: rest) acc s =
      (.error .TypeError,
        { good.foldl ingestStep s with
          adminNames := rosterAfter bad (good.foldl ingestStep s).adminNames }) := by
  induction good generalizing acc s with
  | nil =>
    rw [List.nil_append, ingestLoop, construct_li_error bad s hbad]
    rfl
  | cons e more ih =>
    have he := hgood e (List.mem_cons_self _ _)
    have hmore : ∀ x ∈ more, (matchTimestamp x.localTimeScript).isSome = true :=
      fun x hx => hgood x (List.mem_cons_of_mem _ hx)
    rw [List.cons_append, ingestLoop, construct_li_parseable e s he]
    simp only
    rw [ih _ _ hmore]
    rfl

/-- C6 (counterexample): the batch `A: hello` followed by a record without timestamp
fails, yet the first record stays ingested and the author of the failing record is on
the roster. -/
theorem ingestion_not_atomic :
    (∃ e ∈ [recordBad, recordA], matchTimestamp e.localTimeScript = none) ∧
    (parseAllMessages (some [recordBad, recordA]) State.initial).1 = .error .TypeError ∧
    (parseAllMessages (some [recordBad, recordA]) State.initial).2.authorMap = [("A", [0])] ∧
    (parseAllMessages (some [recordBad, recordA]) State.initial).2.authorMap ≠
      State.initial.authorMap ∧
    (parseAllMessages (some [recordBad, recordA]) State.initial).2.totalMessageCount = 1 ∧
    (parseAllMessages (some [recordBad, recordA]) State.initial).2.totalMessageCount ≠
      State.initial.totalMessageCount ∧
    (parseAllMessages (some [recordBad, recordA]) State.initial).2.adminNames = ["Z"] ∧
    (parseAllMessages (some [recordBad, recordA]) State.initial).2.adminNames ≠
      State.initial.adminNames := by
  refine ⟨⟨recordBad, by decide, by decide⟩, by decide, by decide, by decide, by decide,
    by decide, by decide, by decide⟩

/-- C6 (amended): when the batch, in ingestion order, is a run of records with a
timestamp followed by one without, `parseAllMessages` raises a `TypeError` and nothing is
rolled back: the state is the one reached by ingesting the run and then running
`parseHtmlLiElement` on the failing record, so the run stays ingested (the counter has
grown by its length), the failing author is on the roster when admin-flagged, no later
record is touched, and the messages that existed before are as they were. -/
theorem ingestion_stops_at_first_bad_record (children good rest : List HTMLLIElement)
    (bad : HTMLLIElement) (s : State)
    (hsplit : children.reverse = good ++ bad :: rest)
    (hgood : ∀ e ∈ good, (matchTimestamp e.localTimeScript).isSome = true)
    (hbad : matchTimestamp bad.localTimeScript = none) :
    (parseAllMessages (some children) s).1 = .error .TypeError ∧
    (ingestLoop good [] { s with parseAttempts := s.parseAttempts + 1 }).1 =
      .ok (List.range' s.heap.length good.length) ∧
    (parseAllMessages (some children) s).2 =
      (parseHtmlLiElement bad
        (ingestLoop good [] { s with parseAttempts := s.parseAttempts + 1 }).2).2 ∧
    (parseAllMessages (some children) s).2.totalMessageCount =
      s.totalMessageCount + good.length ∧
    (parseAllMessages (some children) s).2.heap.length = s.heap.length + good.length ∧
    (parseAllMessages (some children) s).2.parseAttempts = s.parseAttempts + 1 ∧
    (∀ a, getAuthorMessages a (parseAllMessages (some children) s).2 =
      getAuthorMessages a s ++
        (List.range' s.heap.length good.length).filter
          (fun r => ((parseAllMessages (some children) s).2.deref r).author = a)) ∧
    (bad.isAdmin = true → bad.author ∈ (parseAllMessages (some children) s).2.adminNames) ∧
    (∀ r, r < s.heap.length → (parseAllMessages (some children) s).2.deref r = s.deref r) := by
  have hout : parseAllMessages (some children) s =
      (.error .TypeError,
        { good.foldl ingestStep { s with parseAttempts := s.parseAttempts + 1 } with
          adminNames := rosterAfter bad
            (good.foldl ingestStep { s with parseAttempts := s.parseAttempts + 1 }).adminNames }) := by
    simp only [parseAllMessages, hsplit]
    rw [ingestLoop_stops good rest bad [] _ hgood hbad]
  rw [hout, ingestLoop_ok good [] _ hgood, parseHtmlLiElement_state]
  refine ⟨rfl, by simp, rfl, ?_, ?_, ?_, ?_, ?_, ?_⟩
  · simp only
    rw [foldl_ingestStep_count]
  · simp only
    rw [foldl_ingestStep_heap]
    simp [freshMessages_length]
  · simp only
    rw [foldl_ingestStep_parseAttempts]
  · intro a
    have hl := foldl_ingestStep_lookup good { s with parseAttempts := s.parseAttempts + 1 } a
    simpa [getAuthorMessages_eq_lookup, State.deref] using hl
  · intro h
    exact rosterAfter_mem bad _ h
  · intro r hr
    have := deref_old good { s with parseAttempts := s.parseAttempts + 1 } r hr
    simpa [State.deref] using this

/-- The batch `A`, a record without timestamp, `B`: the call fails with one message kept. -/
theorem ingestion_stops_at_first_bad_record_witness :
    (parseAllMessages (some [recordB, recordBad, recordA]) State.initial).1 = .error .TypeError ∧
    (parseAllMessages (some [recordB, recordBad, recordA]) State.initial).2.totalMessageCount = 1 :=
  ⟨(ingestion_stops_at_first_bad_record [recordB, recordBad, recordA] [recordA] [recordB]
      recordBad State.initial rfl (by decide) (by decide)).1,
   (ingestion_stops_at_first_bad_record [recordB, recordBad, recordA] [recordA] [recordB]
      recordBad State.initial rfl (by decide) (by decide)).2.2.2.1⟩

theorem ingestLoop_timeouts (records : List HTMLLIElement) (acc : List Ref) (s : State) :
    (ingestLoop records acc s).2.timeouts = s.timeouts ∧
    (ingestLoop records acc s).2.parseAttempts = s.parseAttempts := by
  induction records generalizing acc s with
  | nil => simp [ingestLoop]
  | cons e rest ih =>
    rw [ingestLoop]
    rcases construct_li_cases e s with hc | hc
    · rw [hc]
      simpa [ingestStep, afterConstruct] using ih (acc ++ [s.heap.length]) (ingestStep s e)
    · rw [hc]
      exact ⟨rfl, rfl⟩

theorem parseAllMessages_present (children : List HTMLLIElement) (s : State) :
    (parseAllMessages (some children) s).2.timeouts = s.timeouts ∧
    (parseAllMessages (some children) s).2.parseAttempts = s.parseAttempts + 1 := by
  have h := ingestLoop_timeouts children.reverse [] { s with parseAttempts := s.parseAttempts + 1 }
  simp only [parseAllMessages]
  rcases hl : ingestLoop children.reverse [] { s with parseAttempts := s.parseAttempts + 1 } with
    ⟨res, s2⟩
  rw [hl] at h
  cases res <;> exact h

theorem scaledDelays_succ (a j : Nat) :
    scaledDelays a (j + 1) = (a + 1) * 250 :: scaledDelays (a + 1) j := by
  simp only [scaledDelays, List.range_succ_eq_map, List.map_cons, List.map_map]
  refine congrArg₂ _ rfl (List.map_congr_left fun i _ => ?_)
  simp only [Function.comp_apply, Nat.succ_eq_add_one]
  omega

theorem runAttempts_absent (page : Nat → Option (List HTMLLIElement)) (j fuel : Nat) (s : State)
    (habsent : ∀ k, s.parseAttempts < k → k ≤ s.parseAttempts + j → page k = none)
    (hbound : s.parseAttempts + j ≤ 9) :
    runAttempts page (j + fuel) s =
      runAttempts page fuel
        { s with parseAttempts := s.parseAttempts + j,
                 timeouts := s.timeouts ++ scaledDelays s.parseAttempts j } := by
  induction j generalizing s with
  | zero => simp [scaledDelays]
  | succ j ih =>
    have hp : page (s.parseAttempts + 1) = none := habsent _ (by omega) (by omega)
    have hlt : s.parseAttempts + 1 < 10 := by omega
    rw [show j + 1 + fuel = (j + fuel) + 1 by omega, runAttempts]
    simp only [hp, parseAllMessages, if_pos hlt, List.length_append, List.length_singleton,
      Nat.lt_succ_self, if_true]
    rw [ih]
    · simp only [scaledDelays_succ, List.append_assoc, List.singleton_append]
      congr 2
      omega
    · intro k h1 h2
      exact habsent k (by simp only at h1; omega) (by simp only at h2; omega)
    · simp only
      omega

theorem scaledDelays_zero (j : Nat) :
    scaledDelays 0 j = (List.range j).map (fun k => (k + 1) * 250) := by
  simp [scaledDelays]

theorem runAttempts_present (page : Nat → Option (List HTMLLIElement)) (fuel : Nat) (s : State)
    (children : List HTMLLIElement) (hpresent : page (s.parseAttempts + 1) = some children) :
    runAttempts page (fuel + 1) s = parseAllMessages (some children) s := by
  rw [runAttempts]
  simp only [hpresent, (parseAllMessages_present children s).1, lt_self_iff_false, if_false]

/-- C9: when the container is absent during attempts 1 to n-1 and present during
attempt n, with n at most 10, the timer queue makes exactly n-1 retries, the k-th after
k * 250 ms, and the n-th call runs the ingest loop on the page: the outcome is that of
`parseAllMessages` on the present container, it schedules nothing, and when every
record carries a timestamp it returns one message per record, in ingestion order, each
filed in the author index. -/
theorem polling_succeeds (page : Nat → Option (List HTMLLIElement)) (n fuel : Nat)
    (children : List HTMLLIElement) (s : State)
    (hstart : s.parseAttempts = 0) (hn1 : 1 ≤ n) (hn10 : n ≤ 10)
    (habsent : ∀ k, 1 ≤ k → k < n → page k = none) (hpresent : page n = some children)
    (hfuel : n ≤ fuel) :
    runAttempts page fuel s =
      parseAllMessages (some children)
        { s with parseAttempts := n - 1,
                 timeouts := s.timeouts ++ (List.range (n - 1)).map (fun k => (k + 1) * 250) } ∧
    (runAttempts page fuel s).2.timeouts =
      s.timeouts ++ (List.range (n - 1)).map (fun k => (k + 1) * 250) ∧
    (runAttempts page fuel s).2.parseAttempts = n ∧
    ((∀ e ∈ children, (matchTimestamp e.localTimeScript).isSome = true) →
      ∃ messages : List Ref,
        (runAttempts page fuel s).1 = .ok (some messages) ∧
        messages.map (fun r => (((runAttempts page fuel s).2.deref r).author,
            ((runAttempts page fuel s).2.deref r).isAdmin,
            ((runAttempts page fuel s).2.deref r).message)) =
          children.reverse.map (fun e => (e.author, e.isAdmin, e.message)) ∧
        ∀ r ∈ messages,
          r ∈ getAuthorMessages ((runAttempts page fuel s).2.deref r).author
            (runAttempts page fuel s).2) := by
  obtain ⟨m, rfl⟩ : ∃ m, n = m + 1 := ⟨n - 1, by omega⟩
  obtain ⟨f, rfl⟩ : ∃ f, fuel = m + (f + 1) := ⟨fuel - m - 1, by omega⟩
  have hrun : runAttempts page (m + (f + 1)) s =
      parseAllMessages (some children)
        { s with parseAttempts := m,
                 timeouts := s.timeouts ++ (List.range m).map (fun k => (k + 1) * 250) } := by
    rw [runAttempts_absent page m (f + 1) s
      (fun k h1 h2 => habsent k (by omega) (by omega)) (by omega), hstart, Nat.zero_add,
      scaledDelays_zero]
    exact runAttempts_present page f _ children (by simpa using hpresent)
  have hp := parseAllMessages_present children
    { s with parseAttempts := m,
             timeouts := s.timeouts ++ (List.range m).map (fun k => (k + 1) * 250) }
  simp only [Nat.add_sub_cancel]
  refine ⟨hrun, by rw [hrun]; exact hp.1, by rw [hrun]; exact hp.2, ?_⟩
  intro hparse
  have hrev : ∀ e ∈ children.reverse, (matchTimestamp e.localTimeScript).isSome = true :=
    fun e he => hparse e (List.mem_reverse.mp he)
  rw [hrun]
  simp only [parseAllMessages]
  rw [ingestLoop_ok children.reverse [] _ hrev]
  refine ⟨List.range' s.heap.length children.reverse.length, by simp, ?_, ?_⟩
  · exact map_fresh_fields children.reverse _
  · intro r hr
    simp only
    rw [getAuthorMessages_eq_lookup, foldl_ingestStep_lookup]
    exact List.mem_append_right _ (List.mem_filter.mpr ⟨hr, by simp⟩)

/-- Container present from the third attempt on: two delays, 250 ms and 500 ms, and both
records ingested. -/
theorem polling_succeeds_witness :
    (runAttempts pageOnThird 5 State.initial).2.timeouts = [250, 500] ∧
    (runAttempts pageOnThird 5 State.initial).1 = .ok (some [0, 1]) :=
  ⟨(polling_succeeds pageOnThird 3 5 [recordB, recordA] State.initial rfl (by decide)
      (by decide) (by intro k _ h; simp [pageOnThird, h]) rfl (by decide)).2.1,
   by decide⟩

/-- C10 (counterexample): the tenth attempt is followed by the fixed delay of 10000 ms,
not by a delay scaled by its number; a run without container schedules nine scaled
delays and the fixed one, ten in all. -/
theorem tenth_attempt_delay_is_fixed :
    (parseAllMessages none { State.initial with parseAttempts := 9 }).2.parseAttempts = 10 ∧
    (parseAllMessages none { State.initial with parseAttempts := 9 }).2.timeouts = [10000] ∧
    (parseAllMessages none { State.initial with parseAttempts := 9 }).2.timeouts ≠ [10 * 250] ∧
    (runAttempts (fun _ => none) 11 State.initial).2.timeouts =
      [250, 500, 750, 1000, 1250, 1500, 1750, 2000, 2250, 10000] ∧
    (runAttempts (fun _ => none) 11 State.initial).2.timeouts ≠
      (List.range 10).map (fun k => (k + 1) * 250) ++ [10000] := by
  refine ⟨by decide, by decide, by decide, by decide, by decide⟩

/-- C10 (amended): with the container never present, attempts 1 to 9 are each followed
by a delay of 250 ms times the attempt number, attempt 10 by the fixed delay of
10000 ms, and attempt 11 raises a `RangeError` and schedules nothing. -/
theorem polling_exhausts (page : Nat → Option (List HTMLLIElement)) (fuel : Nat) (s : State)
    (hstart : s.parseAttempts = 0) (habsent : ∀ k, page k = none) (hfuel : 11 ≤ fuel) :
    runAttempts page fuel s =
      (.error .RangeError,
        { s with parseAttempts := 11,
                 timeouts := s.timeouts ++
                   ((List.range 9).map (fun k => (k + 1) * 250) ++ [10000]) }) := by
  obtain ⟨f, rfl⟩ : ∃ f, fuel = 9 + (f + 2) := ⟨fuel - 11, by omega⟩
  rw [runAttempts_absent page 9 (f + 2) s (fun k _ _ => habsent k) (by omega), hstart,
    Nat.zero_add, scaledDelays_zero]
  simp only [runAttempts, habsent, parseAllMessages]
  simp

/-- From the initial state with no container ever: the run ends in a `RangeError` at
attempt 11. -/
theorem polling_exhausts_witness :
    (runAttempts (fun _ => none) 12 State.initial).1 = .error .RangeError ∧
    (runAttempts (fun _ => none) 12 State.initial).2.parseAttempts = 11 :=
  ⟨congrArg Prod.fst (polling_exhausts (fun _ => none) 12 State.initial rfl (fun _ => rfl)
      (by decide)),
   congrArg (fun out => out.2.parseAttempts)
     (polling_exhausts (fun _ => none) 12 State.initial rfl (fun _ => rfl) (by decide))⟩

theorem matchAtoms_append_digits (ds : List Char) (hds : ∀ c ∈ ds, c.isDigit = true)
    (as : List Atom) (rest : List Char) :
    matchAtoms (List.replicate ds.length Atom.digit ++ as) (ds ++ rest) = matchAtoms as rest := by
  induction ds with
  | nil => simp
  | cons d more ih =>
    have hd : Atom.test .digit d = true := hds d (List.mem_cons_self _ _)
    simp only [List.length_cons, List.replicate_succ, List.cons_append, matchAtoms, hd, if_true]
    exact ih (fun c hc => hds c (List.mem_cons_of_mem _ hc))

theorem matchAtoms_digits (n : Nat) (ds : List Char) (h : isDigits n ds) (as : List Atom)
    (rest : List Char) :
    matchAtoms (List.replicate n Atom.digit ++ as) (ds ++ rest) = matchAtoms as rest := by
  obtain ⟨rfl, hds⟩ := h
  exact matchAtoms_append_digits ds hds as rest

theorem matchAtoms_chr (c : Char) (as : List Atom) (rest : List Char) :
    matchAtoms (Atom.chr c :: as) (c :: rest) = matchAtoms as rest := by
  simp [matchAtoms, Atom.test]

theorem matchAtoms_lead (rest : List Char) :
    matchAtoms timestampLead ("var timestamp = \"".toList ++ rest) = some rest := by
  simp [timestampLead, matchAtoms, Atom.test]

theorem timestampHead_eq :
    timestampHead =
      List.replicate 4 Atom.digit ++ Atom.chr '-' :: (List.replicate 2 Atom.digit ++
        Atom.chr '-' :: (List.replicate 2 Atom.digit ++ Atom.chr 'T' ::
          (List.replicate 2 Atom.digit ++ Atom.chr ':' :: (List.replicate 2 Atom.digit ++
            Atom.chr ':' :: [])))) := by
  rfl

theorem matchAtoms_head (year month day hour minute rest : List Char)
    (hy : isDigits 4 year) (hmo : isDigits 2 month) (hd : isDigits 2 day)
    (hh : isDigits 2 hour) (hmi : isDigits 2 minute) :
    matchAtoms timestampHead (dateTimeHead year month day hour minute ++ rest) = some rest := by
  rw [timestampHead_eq, dateTimeHead]
  simp only [List.append_assoc, List.cons_append, List.nil_append]
  rw [matchAtoms_digits 4 year hy, matchAtoms_chr, matchAtoms_digits 2 month hmo, matchAtoms_chr,
    matchAtoms_digits 2 day hd, matchAtoms_chr, matchAtoms_digits 2 hour hh, matchAtoms_chr,
    matchAtoms_digits 2 minute hmi, matchAtoms_chr]
  rfl

theorem dateTimeHead_length (year month day hour minute : List Char)
    (hy : isDigits 4 year) (hmo : isDigits 2 month) (hd : isDigits 2 day)
    (hh : isDigits 2 hour) (hmi : isDigits 2 minute) :
    (dateTimeHead year month day hour minute).length = 17 := by
  simp [dateTimeHead, hy.1, hmo.1, hd.1, hh.1, hmi.1]

theorem matchAtoms_tail_iff (seconds after : List Char) (hsec : ∀ c ∈ seconds, isDigitOrDot c)
    (j : Nat) :
    (matchAtoms (timestampTail j) (seconds ++ 'Z' :: '"' :: after)).isSome = true ↔
      j = seconds.length := by
  induction seconds generalizing j with
  | nil =>
    cases j with
    | zero => simp [timestampTail, matchAtoms, Atom.test]
    | succ j => simp [timestampTail, List.replicate_succ, matchAtoms, Atom.test]
  | cons c more ih =>
    have hc : Atom.test .digitOrDot c = true := by
      rcases hsec c (List.mem_cons_self _ _) with h | h
      · simp [Atom.test, h]
      · simp [Atom.test, h]
    have hnz : c ≠ 'Z' := by
      rintro rfl
      rcases hsec _ (List.mem_cons_self _ _) with h | h
      · exact absurd h (by decide)
      · exact absurd h (by decide)
    cases j with
    | zero =>
      simp [timestampTail, matchAtoms, Atom.test, hnz]
    | succ j =>
      have := ih (fun x hx => hsec x (List.mem_cons_of_mem _ hx)) j
      simpa [timestampTail, List.replicate_succ, matchAtoms, hc] using this

theorem find_count (seconds after : List Char) (hsec : ∀ c ∈ seconds, isDigitOrDot c)
    (h1 : 1 ≤ seconds.length) (h6 : seconds.length ≤ 6) :
    [6, 5, 4, 3, 2, 1].find?
        (fun j => (matchAtoms (timestampTail j) (seconds ++ 'Z' :: '"' :: after)).isSome) =
      some seconds.length := by
  have hiff := matchAtoms_tail_iff seconds after hsec
  have hfun : (fun j => (matchAtoms (timestampTail j) (seconds ++ 'Z' :: '"' :: after)).isSome) =
      fun j => decide (j = seconds.length) := by
    funext j
    by_cases h : j = seconds.length
    · rw [(hiff j).mpr h]; simp [h]
    · have : (matchAtoms (timestampTail j) (seconds ++ 'Z' :: '"' :: after)).isSome = false := by
        cases hb : (matchAtoms (timestampTail j) (seconds ++ 'Z' :: '"' :: after)).isSome
        · rfl
        · exact absurd ((hiff j).mp hb) h
      rw [this]; simp [h]
  rw [hfun]
  revert h1 h6
  generalize seconds.length = n
  intro h1 h6
  interval_cases n <;> rfl

theorem matchTimestampAt_embedded (year month day hour minute seconds after : List Char)
    (hy : isDigits 4 year) (hmo : isDigits 2 month) (hd : isDigits 2 day)
    (hh : isDigits 2 hour) (hmi : isDigits 2 minute)
    (hsec : ∀ c ∈ seconds, isDigitOrDot c)
    (h1 : 1 ≤ seconds.length) (h6 : seconds.length ≤ 6) :
    matchTimestampAt ("var timestamp = \"".toList ++
        ((dateTimeHead year month day hour minute ++ (seconds ++ ['Z'])) ++ '"' :: after)) =
      some (dateTimeHead year month day hour minute ++ (seconds ++ ['Z'])) := by
  have hlen := dateTimeHead_length year month day hour minute hy hmo hd hh hmi
  have hshape : (dateTimeHead year month day hour minute ++ (seconds ++ ['Z'])) ++ '"' :: after =
      dateTimeHead year month day hour minute ++ (seconds ++ 'Z' :: '"' :: after) := by
    simp
  rw [matchTimestampAt, matchAtoms_lead]
  simp only
  rw [hshape, matchAtoms_head year month day hour minute _ hy hmo hd hh hmi]
  simp only
  rw [find_count seconds after hsec h1 h6]
  simp only [Option.map_some', Option.some.injEq]
  have htl : timestampHead.length = 17 := rfl
  rw [htl, ← hshape, List.take_append_of_le_length (by simp [hlen]; omega)]
  apply List.take_of_length_le
  simp [hlen]
  omega

theorem searchTimestamp_skip (before rest : List Char)
    (hfirst : ∀ k, k < before.length → matchTimestampAt ((before ++ rest).drop k) = none) :
    searchTimestamp (before ++ rest) = searchTimestamp rest := by
  induction before with
  | nil => rfl
  | cons c more ih =>
    have h0 := hfirst 0 (by simp)
    simp only [List.drop_zero, List.cons_append] at h0
    rw [List.cons_append, searchTimestamp, h0]
    simp only
    apply ih
    intro k hk
    have := hfirst (k + 1) (by simpa using hk)
    simpa using this

theorem searchTimestamp_hit (cs t : List Char) (h : matchTimestampAt cs = some t) :
    searchTimestamp cs = some t := by
  cases cs with
  | nil => simpa [searchTimestamp] using h
  | cons c more => simp [searchTimestamp, h]

theorem matchTimestampAt_too_long (year month day hour minute seconds after : List Char)
    (hy : isDigits 4 year) (hmo : isDigits 2 month) (hd : isDigits 2 day)
    (hh : isDigits 2 hour) (hmi : isDigits 2 minute)
    (hsec : ∀ c ∈ seconds, isDigitOrDot c)
    (hlen : seconds.length = 0 ∨ 6 < seconds.length) :
    matchTimestampAt ("var timestamp = \"".toList ++
        ((dateTimeHead year month day hour minute ++ (seconds ++ ['Z'])) ++ '"' :: after)) =
      none := by
  have hshape : (dateTimeHead year month day hour minute ++ (seconds ++ ['Z'])) ++ '"' :: after =
      dateTimeHead year month day hour minute ++ (seconds ++ 'Z' :: '"' :: after) := by
    simp
  rw [matchTimestampAt, matchAtoms_lead]
  simp only
  rw [hshape, matchAtoms_head year month day hour minute _ hy hmo hd hh hmi]
  simp only
  have hnone : [6, 5, 4, 3, 2, 1].find?
      (fun j => (matchAtoms (timestampTail j) (seconds ++ 'Z' :: '"' :: after)).isSome) = none := by
    rw [List.find?_eq_none]
    intro j hj hsome
    have hjl := (matchAtoms_tail_iff seconds after hsec j).mp hsome
    simp only [List.mem_cons, List.mem_singleton, List.not_mem_nil, or_false] at hj
    omega
  rw [hnone]
  rfl

/-- C11 (counterexample): a timestamp with six fractional digits is not matched and
`parseHtmlLiElement` raises a `TypeError`; and of two embedded timestamps only the first
is returned. -/
theorem microseconds_rejected :
    recordMicroseconds.localTimeScript =
      embedTimestamp [] "2024-01-02T03:04:05.123456Z".toList [';'] ∧
    matchTimestamp recordMicroseconds.localTimeScript = none ∧
    (parseHtmlLiElement recordMicroseconds State.initial).1 = .error .TypeError ∧
    recordTwoTimestamps.localTimeScript =
      embedTimestamp "var timestamp = \"2024-01-02T03:04:05Z\"; ".toList
        "2025-06-07T08:09:10Z".toList [';'] ∧
    matchTimestamp recordTwoTimestamps.localTimeScript = some "2024-01-02T03:04:05Z" ∧
    matchTimestamp recordTwoTimestamps.localTimeScript ≠ some "2025-06-07T08:09:10Z" := by
  refine ⟨by decide, by decide, by decide, by decide, by decide, by decide⟩

/-- C11 (amended): take a timestamp `YYYY-MM-DDTHH:mm:` followed by a seconds field out
of digits and dots and by `Z`, embedded as `var timestamp = "<ts>"`.  When the seconds
field has one to six characters (`ss`, and `ss.fff` with up to three fractional digits)
and the pattern matches nowhere earlier in the script text, `parseHtmlLiElement`
succeeds and returns the timestamp as it is.  When the field is empty or longer than six
characters (`ss.ffffff` has nine) the pattern does not match at that place. -/
theorem timestamp_extracted (year month day hour minute seconds before after : List Char)
    (liElement : HTMLLIElement) (s : State)
    (hy : isDigits 4 year) (hmo : isDigits 2 month) (hd : isDigits 2 day)
    (hh : isDigits 2 hour) (hmi : isDigits 2 minute)
    (hsec : ∀ c ∈ seconds, isDigitOrDot c)
    (hscript : liElement.localTimeScript =
      embedTimestamp before (dateTimeHead year month day hour minute ++ (seconds ++ ['Z'])) after)
    (hfirst : ∀ k, k < before.length →
      matchTimestampAt (liElement.localTimeScript.toList.drop k) = none) :
    (1 ≤ seconds.length ∧ seconds.length ≤ 6 →
      matchTimestamp liElement.localTimeScript =
        some (String.mk (dateTimeHead year month day hour minute ++ (seconds ++ ['Z']))) ∧
      (parseHtmlLiElement liElement s).1 =
        .ok { author := liElement.author, id := none, isAdmin := liElement.isAdmin,
              message := liElement.message, replies := [],
              timestamp :=
                String.mk (dateTimeHead year month day hour minute ++ (seconds ++ ['Z'])) }) ∧
    (seconds.length = 0 ∨ 6 < seconds.length →
      matchTimestampAt (liElement.localTimeScript.toList.drop before.length) = none) := by
  constructor
  · rintro ⟨h1, h6⟩
    have hm : matchTimestamp liElement.localTimeScript =
        some (String.mk (dateTimeHead year month day hour minute ++ (seconds ++ ['Z']))) := by
      have hit := searchTimestamp_hit _ _
        (matchTimestampAt_embedded year month day hour minute seconds after hy hmo hd hh hmi
          hsec h1 h6)
      rw [hscript, embedTimestamp] at hfirst
      rw [matchTimestamp, hscript, embedTimestamp]
      simp only [String.toList] at hfirst hit ⊢
      rw [searchTimestamp_skip before _ hfirst, hit]
      rfl
    refine ⟨hm, ?_⟩
    rw [parseHtmlLiElement_result, hm]
  · intro hlen
    have hmiss := matchTimestampAt_too_long year month day hour minute seconds after
      hy hmo hd hh hmi hsec hlen
    rw [hscript, embedTimestamp]
    simp only [String.toList] at hmiss ⊢
    rw [List.drop_left]
    exact hmiss

/-- The timestamp `2024-01-02T03:04:05.123Z` behind some other script text is returned. -/
theorem timestamp_extracted_witness :
    matchTimestamp "var x = 1; var timestamp = \"2024-01-02T03:04:05.123Z\"; done" =
      some "2024-01-02T03:04:05.123Z" :=
  ((timestamp_extracted "2024".toList "01".toList "02".toList "03".toList "04".toList
    "05.123".toList "var x = 1; ".toList "; done".toList
    ⟨"A", false, "hello", "var x = 1; var timestamp = \"2024-01-02T03:04:05.123Z\"; done"⟩
    State.initial (by decide) (by decide) (by decide) (by decide) (by decide) (by decide)
    (by decide) (by decide)).1 (by decide)).1

theorem getAdminMessages_loop (m : List (String × List Ref)) (names : List String)
    (acc : List (List Ref)) :
    names.foldl
        (fun workingArray adminName =>
          if mapHas m adminName then workingArray ++ [(mapGet m adminName).getD []]
          else workingArray)
        acc =
      acc ++ (names.filter (fun n => mapHas m n)).map (fun n => lookup m n) := by
  induction names generalizing acc with
  | nil => simp
  | cons n rest ih =>
    rw [List.foldl_cons, ih]
    by_cases h : mapHas m n = true
    · simp [h, lookup]
    · simp [h]

theorem mapHas_iff_mem_keys (m : List (String × List Ref)) (a : String) :
    mapHas m a = true ↔ ∃ e ∈ m, e.1 = a := by
  simp [mapHas]

theorem lookup_mem (m : List (String × List Ref)) (a : String) (h : mapHas m a = true) :
    (a, lookup m a) ∈ m := by
  induction m with
  | nil => simp [mapHas] at h
  | cons e rest ih =>
    rw [lookup_cons]
    by_cases he : e.1 = a
    · rw [if_pos he]
      subst he
      exact List.mem_cons_self _ _
    · rw [if_neg he]
      have hb : (e.1 == a) = false := by simpa using he
      have hr : mapHas rest a = true := by
        simpa [mapHas, hb] using h
      exact List.mem_cons_of_mem _ (ih hr)

theorem lookup_of_not_has (m : List (String × List Ref)) (a : String) (h : ¬ mapHas m a = true) :
    lookup m a = [] := by
  simp [lookup, h]

/-- C12: a name without messages is not left out when the author index holds an empty
array for it.  After `from` was given a snapshot with an author entry that lists no
message, `X` has no messages, yet `getAdminMessages` for `X`, and with no argument,
returns the one-element list holding the empty sequence instead of the empty list. -/
theorem getAdminMessages_empty_sequence :
    emptyEntryState.authorMap = [("X", [])] ∧
    getAuthorMessages "X" emptyEntryState = [] ∧
    getAdminMessages (.names ["X"]) emptyEntryState = [[]] ∧
    getAdminMessages .absent emptyEntryState = [[]] ∧
    [] ∈ getAdminMessages (.names ["X"]) emptyEntryState := by
  refine ⟨by decide, by decide, by decide, by decide, by decide⟩

/-- For every state `getAdminMessages` returns, in request order, the array of each
requested name that has an entry in the author index, whatever the array holds; a single
string stands for the one-element list and a missing argument for the roster.  When no
entry of the index is empty, the names with an entry are the names with messages and no
returned sequence is empty. -/
theorem getAdminMessages_entries (names : List String) (name : String) (s : State) :
    getAdminMessages (.names names) s =
      (names.filter (fun n => mapHas s.authorMap n)).map (fun n => getAuthorMessages n s) ∧
    getAdminMessages (.name name) s = getAdminMessages (.names [name]) s ∧
    getAdminMessages .absent s = getAdminMessages (.names s.adminNames) s ∧
    ((∀ e ∈ s.authorMap, e.2 ≠ []) →
      getAdminMessages (.names names) s =
        (names.filter (fun n => getAuthorMessages n s ≠ [])).map
          (fun n => getAuthorMessages n s) ∧
      [] ∉ getAdminMessages (.names names) s) := by
  have hloop : getAdminMessages (.names names) s =
      (names.filter (fun n => mapHas s.authorMap n)).map (fun n => getAuthorMessages n s) := by
    simp only [getAdminMessages]
    rw [getAdminMessages_loop]
    rfl
  refine ⟨hloop, rfl, rfl, ?_⟩
  intro hentries
  have hiff : ∀ n, mapHas s.authorMap n = true ↔ getAuthorMessages n s ≠ [] := by
    intro n
    constructor
    · intro h
      exact hentries _ (lookup_mem s.authorMap n h)
    · intro h
      by_contra hn
      exact h (lookup_of_not_has s.authorMap n hn)
  refine ⟨?_, ?_⟩
  · rw [hloop]
    congr 1
    apply List.filter_congr
    intro n _
    by_cases h : mapHas s.authorMap n = true
    · simp [h, (hiff n).mp h]
    · have : getAuthorMessages n s = [] := lookup_of_not_has s.authorMap n h
      simp [h, this]
  · rw [hloop]
    intro hmem
    obtain ⟨n, hn, hnil⟩ := List.mem_map.mp hmem
    have hhas : mapHas s.authorMap n = true := by simpa using (List.mem_filter.mp hn).2
    exact (hiff n).mp hhas hnil

/-- After `A: hello` and `B: @A hi`, a request for `nobody`, `B`, `A` yields the arrays of
`B` and `A` in that order. -/
theorem getAdminMessages_entries_example :
    getAdminMessages (.names ["nobody", "B", "A"])
      (ingestLoop [recordA, recordB] [] State.initial).2 = [[1], [0]] :=
  (getAdminMessages_entries ["nobody", "B", "A"] "A"
    (ingestLoop [recordA, recordB] [] State.initial).2).1

theorem ingestLoop_frame (records : List HTMLLIElement) (acc : List Ref) (s : State) :
    (ingestLoop records acc s).2.myShortName = s.myShortName ∧
    (ingestLoop records acc s).2.timeStampOptions = s.timeStampOptions := by
  induction records generalizing acc s with
  | nil => simp [ingestLoop]
  | cons e rest ih =>
    rw [ingestLoop]
    rcases construct_li_cases e s with hc | hc
    · rw [hc]
      simpa [ingestStep, afterConstruct] using ih (acc ++ [s.heap.length]) (ingestStep s e)
    · rw [hc]
      exact ⟨rfl, rfl⟩

theorem parseAllMessages_frame (messageUi : Option (List HTMLLIElement)) (s : State) :
    (parseAllMessages messageUi s).2.myShortName = s.myShortName ∧
    (parseAllMessages messageUi s).2.timeStampOptions = s.timeStampOptions := by
  cases messageUi with
  | none =>
    simp only [parseAllMessages]
    split_ifs <;> exact ⟨rfl, rfl⟩
  | some children =>
    have h := ingestLoop_frame children.reverse [] { s with parseAttempts := s.parseAttempts + 1 }
    simp only [parseAllMessages]
    rcases hl : ingestLoop children.reverse [] { s with parseAttempts := s.parseAttempts + 1 } with
      ⟨res, s2⟩
    rw [hl] at h
    cases res <;> exact h

/-- C14: for `undefined`, for `null` and for a string the JSON parser refuses, `from` is
`parseAllMessages` on the same page and state, outcome and state alike; nothing of a
snapshot is written, and `myShortName` and `timeStampOptions` stay as they were. -/
theorem from_falls_back (parseSnapshot : String → Option (Option Snapshot))
    (parseMessage : String → Option MessageData) (messageUi : Option (List HTMLLIElement))
    (text : String) (s : State) (hrefused : parseSnapshot text = none) :
    fromObject parseSnapshot parseMessage messageUi .undefined s = parseAllMessages messageUi s ∧
    fromObject parseSnapshot parseMessage messageUi .null s = parseAllMessages messageUi s ∧
    fromObject parseSnapshot parseMessage messageUi (.string text) s =
      parseAllMessages messageUi s ∧
    (fromObject parseSnapshot parseMessage messageUi (.string text) s).2.myShortName =
      s.myShortName ∧
    (fromObject parseSnapshot parseMessage messageUi (.string text) s).2.timeStampOptions =
      s.timeStampOptions := by
  have hs : fromObject parseSnapshot parseMessage messageUi (.string text) s =
      parseAllMessages messageUi s := by
    simp only [fromObject, hrefused]
  refine ⟨rfl, rfl, hs, ?_, ?_⟩
  · rw [hs]; exact (parseAllMessages_frame messageUi s).1
  · rw [hs]; exact (parseAllMessages_frame messageUi s).2

/-- With a parser that refuses every text, `from` of a string ingests the page. -/
theorem from_falls_back_witness :
    (fromObject (fun _ => none) (fun _ => none) (some [recordB, recordA]) (.string "not json")
      State.initial).1 = .ok (some [0, 1]) :=
  (congrArg Prod.fst
    (from_falls_back (fun _ => none) (fun _ => none) (some [recordB, recordA]) "not json"
      State.initial rfl).2.2.1).trans (by decide)

theorem replyIds_of_messages (s : State) (replies : List Reply)
    (h : ∀ reply ∈ replies, ∃ r n, reply = .message r ∧ (s.deref r).id = some n) :
    ∃ ids, replyIds s replies = .ok ids ∧
      List.Forall₂
        (fun reply out => ∃ r n, reply = Reply.message r ∧ (s.deref r).id = some n ∧
          out = Reply.id n)
        replies ids ∧
      ∀ out ∈ ids, ∃ n, out = Reply.id n := by
  induction replies with
  | nil => exact ⟨[], rfl, List.Forall₂.nil, by simp⟩
  | cons reply rest ih =>
    obtain ⟨r, n, rfl, hn⟩ := h reply (List.mem_cons_self _ _)
    obtain ⟨ids, hids, hall, hnum⟩ := ih (fun x hx => h x (List.mem_cons_of_mem _ hx))
    refine ⟨.id n :: ids, ?_, List.Forall₂.cons ⟨r, n, rfl, hn, rfl⟩ hall, ?_⟩
    · simp [replyIds, replyId, hn, hids]
    · intro out hout
      rcases List.mem_cons.mp hout with rfl | hrest
      · exact ⟨n, rfl⟩
      · exact hnum out hrest

/-- C15 (counterexample): a message the constructor builds from plain data keeps the bare
numbers 5 and 7 as its replies, and its `toJSON` returns `undefined` twice in their
place, not ids; with `undefined` among the replies `toJSON` raises a `TypeError`. -/
theorem toJSON_of_unresolved_replies :
    (construct (.object unresolvedData) State.initial).1 = .ok 0 ∧
    (unresolvedState.deref 0).replies = [.id 5, .id 7] ∧
    (unresolvedState.deref 0).toJSON unresolvedState =
      .ok { unresolvedData with replies := [.undefined, .undefined] } ∧
    ¬ (∀ out ∈ [Reply.undefined, Reply.undefined], ∃ n, out = Reply.id n) ∧
    (construct (.object { unresolvedData with replies := [.undefined] }) State.initial).1 =
      .ok 0 ∧
    ((construct (.object { unresolvedData with replies := [.undefined] })
        State.initial).2.deref 0).toJSON
      (construct (.object { unresolvedData with replies := [.undefined] }) State.initial).2 =
      .error .TypeError := by
  refine ⟨by decide, by decide, by decide, ?_, by decide, by decide⟩
  intro h
  obtain ⟨n, hn⟩ := h Reply.undefined (List.mem_cons_self _ _)
  cases hn

/-- C15 (amended): for a message each of whose replies is a message instance carrying an
id, the instance `toJSON` returns the five scalar fields as they are and, for the
replies, the list of their ids, of the same length and in the same order, every element
a number. -/
theorem instance_toJSON_fields (m : ChatMessage) (s : State)
    (hreplies : ∀ reply ∈ m.replies, ∃ r n, reply = .message r ∧ (s.deref r).id = some n) :
    ∃ data, m.toJSON s = .ok data ∧
      data.author = m.author ∧ data.id = m.id ∧ data.isAdmin = m.isAdmin ∧
      data.message = m.message ∧ data.timestamp = m.timestamp ∧
      data.replies.length = m.replies.length ∧
      List.Forall₂
        (fun reply out => ∃ r n, reply = Reply.message r ∧ (s.deref r).id = some n ∧
          out = Reply.id n)
        m.replies data.replies ∧
      ∀ out ∈ data.replies, ∃ n, out = Reply.id n := by
  obtain ⟨ids, hids, hall, hnum⟩ := replyIds_of_messages s m.replies hreplies
  refine ⟨{ author := m.author, id := m.id, isAdmin := m.isAdmin, message := m.message,
            replies := ids, timestamp := m.timestamp }, ?_, rfl, rfl, rfl, rfl, rfl,
          hall.length_eq.symm, hall, hnum⟩
  simp [ChatMessage.toJSON, hids]

/-- The message of `A` with the message of `B` among its replies serializes the reply as
the id 1. -/
theorem instance_toJSON_fields_witness :
    ∃ data, (linkedState.deref 0).toJSON linkedState = .ok data ∧
      data.replies.length = 1 ∧ data.id = some 0 := by
  obtain ⟨data, h, _, hid, _, _, _, hlen, _, _⟩ :=
    instance_toJSON_fields (linkedState.deref 0) linkedState
      (by
        intro reply hreply
        have hr : (linkedState.deref 0).replies = [.message 1] := by decide
        rw [hr, List.mem_singleton] at hreply
        exact ⟨1, 1, hreply, by decide⟩)
  exact ⟨data, h, hlen, hid⟩

/-- C17: a record that names `A` twice is not linked at all.  After `A: hello` and
`B: @A @A hi` the replies of the message of `A` are empty, so the message of `B` occurs
in them zero times, not once. -/
theorem repeated_mention_not_linked :
    (ingestLoop [recordA, recordTwice] [] State.initial).1 = .ok [0, 1] ∧
    ((ingestLoop [recordA, recordTwice] [] State.initial).2.deref 0).author = "A" ∧
    ((ingestLoop [recordA, recordTwice] [] State.initial).2.deref 1).message = "@A @A hi" ∧
    ((ingestLoop [recordA, recordTwice] [] State.initial).2.deref 0).replies = [] ∧
    ((ingestLoop [recordA, recordTwice] [] State.initial).2.deref 0).replies.count
      (Reply.message 1) = 0 ∧
    ((ingestLoop [recordA, recordTwice] [] State.initial).2.deref 0).replies.count
      (Reply.message 1) ≠ 1 := by
  refine ⟨by decide, by decide, by decide, by decide, by decide, by decide⟩

theorem pushAuthor_arrays (m : List (String × List Ref)) (a : String) (r : Ref)
    (h : ∀ e ∈ m, e.2 ≠ [] ∧ e.2.Pairwise (· < ·) ∧ ∀ x ∈ e.2, x < r) :
    ∀ e ∈ pushAuthor m a r, e.2 ≠ [] ∧ e.2.Pairwise (· < ·) ∧ ∀ x ∈ e.2, x < r + 1 := by
  induction m with
  | nil =>
    rw [pushAuthor_nil]
    intro e he
    rw [List.mem_singleton] at he
    subst he
    simp
  | cons e0 rest ih =>
    rw [pushAuthor_cons]
    have h0 := h e0 (List.mem_cons_self _ _)
    have hrest : ∀ e ∈ rest, e.2 ≠ [] ∧ e.2.Pairwise (· < ·) ∧ ∀ x ∈ e.2, x < r :=
      fun e he => h e (List.mem_cons_of_mem _ he)
    have hweak : ∀ e ∈ rest, e.2 ≠ [] ∧ e.2.Pairwise (· < ·) ∧ ∀ x ∈ e.2, x < r + 1 :=
      fun e he => ⟨(hrest e he).1, (hrest e he).2.1, fun x hx => Nat.lt_succ_of_lt ((hrest e he).2.2 x hx)⟩
    by_cases hk : e0.1 = a
    · rw [if_pos hk]
      intro e he
      rcases List.mem_cons.mp he with rfl | he
      · refine ⟨by simp, ?_, ?_⟩
        · exact List.pairwise_append.mpr
            ⟨h0.2.1, List.pairwise_singleton _ _, fun x hx y hy => by
              rw [List.mem_singleton] at hy
              subst hy
              exact h0.2.2 x hx⟩
        · intro x hx
          rcases List.mem_append.mp hx with hx | hx
          · exact Nat.lt_succ_of_lt (h0.2.2 x hx)
          · rw [List.mem_singleton] at hx
            subst hx
            exact Nat.lt_succ_self _
      · exact hweak e he
    · rw [if_neg hk]
      intro e he
      rcases List.mem_cons.mp he with rfl | he
      · exact ⟨h0.1, h0.2.1, fun x hx => Nat.lt_succ_of_lt (h0.2.2 x hx)⟩
      · exact ih hrest e he

theorem pushAuthor_firsts (m : List (String × List Ref)) (a : String) (r : Ref)
    (h : ∀ e ∈ m, e.2 ≠ []) :
    (pushAuthor m a r).map (fun e => e.2.headD 0) = m.map (fun e => e.2.headD 0) ∨
    (pushAuthor m a r).map (fun e => e.2.headD 0) = m.map (fun e => e.2.headD 0) ++ [r] := by
  induction m with
  | nil =>
    right
    rw [pushAuthor_nil]
    rfl
  | cons e0 rest ih =>
    rw [pushAuthor_cons]
    by_cases hk : e0.1 = a
    · left
      rw [if_pos hk]
      have h0 := h e0 (List.mem_cons_self _ _)
      cases hl : e0.2 with
      | nil => exact absurd hl h0
      | cons x xs => simp [hl]
    · rw [if_neg hk]
      rcases ih (fun e he => h e (List.mem_cons_of_mem _ he)) with h1 | h1
      · left
        simp only [List.map_cons, h1]
      · right
        simp only [List.map_cons, h1, List.cons_append]

theorem headD_mem (l : List Ref) (h : l ≠ []) : l.headD 0 ∈ l := by
  cases l with
  | nil => exact absurd rfl h
  | cons x xs => simp

theorem ingestStep_ingested (s : State) (e : HTMLLIElement) (h : Ingested s) :
    Ingested (ingestStep s e) := by
  have hheap : (ingestStep s e).heap = s.heap ++ [newMessage e (timestampOf e) s.totalMessageCount] :=
    rfl
  have hmap : (ingestStep s e).authorMap = pushAuthor s.authorMap e.author s.heap.length := rfl
  have hlen : (ingestStep s e).heap.length = s.heap.length + 1 := ingestStep_heap_length s e
  have hold : ∀ r, r < s.heap.length → (ingestStep s e).deref r = s.deref r := by
    intro r hr
    rw [State.deref, hheap, List.getD_append _ _ _ _ hr, State.deref]
  have hnew : (ingestStep s e).deref s.heap.length =
      newMessage e (timestampOf e) s.totalMessageCount := by
    rw [State.deref, hheap, getD_at_length]
  have hout : ∀ r, s.heap.length < r → (ingestStep s e).deref r = default := by
    intro r hr
    rw [State.deref, hheap]
    exact List.getD_eq_default _ _ (by simp; omega)
  have harr := pushAuthor_arrays s.authorMap e.author s.heap.length h.arrays
  refine ⟨?_, ?_, ?_, ?_, ?_⟩
  · rw [hlen, h.count]
    rfl
  · intro r hr
    rw [hlen] at hr
    rcases Nat.lt_succ_iff_lt_or_eq.mp hr with hlt | heq
    · rw [hold r hlt]
      exact h.ids r hlt
    · rw [heq, hnew, ← h.count]
      rfl
  · rw [hmap, hlen]
    exact harr
  · rw [hmap]
    rcases pushAuthor_firsts s.authorMap e.author s.heap.length (fun x hx => (h.arrays x hx).1)
      with h1 | h1
    · rw [h1]
      exact h.firsts
    · rw [h1]
      refine List.pairwise_append.mpr ⟨h.firsts, List.pairwise_singleton _ _, ?_⟩
      intro x hx y hy
      rw [List.mem_singleton] at hy
      subst hy
      obtain ⟨x0, hx0, rfl⟩ := List.mem_map.mp hx
      exact (h.arrays x0 hx0).2.2 _ (headD_mem _ (h.arrays x0 hx0).1)
  · intro r
    rcases Nat.lt_trichotomy r s.heap.length with hlt | heq | hgt
    · rw [hold r hlt]
      exact h.replies r
    · rw [heq, hnew]
      rfl
    · rw [hout r hgt]
      rfl

theorem ingested_of_fields (s t : State) (h : Ingested s) (hheap : t.heap = s.heap)
    (hmap : t.authorMap = s.authorMap) (hcount : t.totalMessageCount = s.totalMessageCount) :
    Ingested t := by
  have hd : ∀ r, t.deref r = s.deref r := fun r => by rw [State.deref, hheap, State.deref]
  refine ⟨?_, ?_, ?_, ?_, ?_⟩
  · rw [hheap, hcount]; exact h.count
  · intro r hr
    rw [hd]
    exact h.ids r (hheap ▸ hr)
  · rw [hmap, hheap]; exact h.arrays
  · rw [hmap]; exact h.firsts
  · intro r
    rw [hd]
    exact h.replies r

theorem construct_ingested (s : State) (e : HTMLLIElement) (h : Ingested s) :
    Ingested (construct (.li e) s).2 := by
  rcases construct_li_cases e s with hc | hc
  · rw [hc]
    exact ingestStep_ingested s e h
  · rw [hc]
    exact ingested_of_fields s _ h rfl rfl rfl

theorem ingestLoop_ingested (records : List HTMLLIElement) (acc : List Ref) (s : State)
    (h : Ingested s) : Ingested (ingestLoop records acc s).2 := by
  induction records generalizing acc s with
  | nil => simpa [ingestLoop] using h
  | cons e rest ih =>
    rw [ingestLoop]
    have hstep := construct_ingested s e h
    rcases hres : construct (.li e) s with ⟨res, s1⟩
    rw [hres] at hstep
    cases res with
    | error err => exact hstep
    | ok m => exact ih _ _ hstep

theorem parseAllMessages_ingested (messageUi : Option (List HTMLLIElement)) (s : State)
    (h : Ingested s) : Ingested (parseAllMessages messageUi s).2 := by
  cases messageUi with
  | none =>
    simp only [parseAllMessages]
    split_ifs <;> exact ingested_of_fields s _ h rfl rfl rfl
  | some children =>
    have h1 : Ingested { s with parseAttempts := s.parseAttempts + 1 } :=
      ingested_of_fields s _ h rfl rfl rfl
    have h2 := ingestLoop_ingested children.reverse [] _ h1
    simp only [parseAllMessages]
    rcases hl : ingestLoop children.reverse [] { s with parseAttempts := s.parseAttempts + 1 } with
      ⟨res, s2⟩
    rw [hl] at h2
    cases res <;> exact h2

theorem initial_ingested : Ingested State.initial := by
  refine ⟨rfl, ?_, ?_, ?_, ?_⟩
  · intro r hr
    exact absurd hr (Nat.not_lt_zero r)
  · intro e he
    cases he
  · exact List.Pairwise.nil
  · intro r
    simp [State.deref, State.initial]
    rfl

theorem reachable_ingested (s : State) (h : Reachable s) : Ingested s := by
  induction h with
  | initial => exact initial_ingested
  | byConstructor s e _ ih => exact construct_ingested s e ih
  | byParseAllMessages s messageUi _ ih => exact parseAllMessages_ingested messageUi s ih

theorem jsSort_compareAuthorEntries (l : List (String × List Ref)) :
    jsSort compareAuthorEntries l = l := by
  unfold jsSort
  apply List.Sorted.insertionSort_eq
  exact List.pairwise_of_forall (fun _ _ => by simp [compareAuthorEntries])

theorem toJSON_lookup (s : State) :
    (toJSON s).aurthorLookup = some (s.authorMap.map (fun e => (e.1, e.2.map Entry.live))) := by
  simp [toJSON, jsSort_compareAuthorEntries]

theorem map_entryId_live (s : State) (h : Ingested s) (refs : List Ref)
    (hr : ∀ r ∈ refs, r < s.heap.length) :
    (refs.map Entry.live).map (entryId s) = refs := by
  rw [List.map_map]
  conv_rhs => rw [← List.map_id refs]
  apply List.map_congr_left
  intro r hmem
  simp [entryId, h.ids r (hr r hmem)]

/-- C13: in a state reached by ingestion the snapshot of the static `toJSON` lists the
authors in the order of the author index; every entry is a non-empty array of live
messages with ascending ids, so its first message is its lowest, and the ids of the
first messages ascend along the entries.  The snapshot is a function of the five static
fields it copies: states that agree on them have equal snapshots. -/
theorem toJSON_order (s : State) (h : Reachable s) :
    ∃ lookup, (toJSON s).aurthorLookup = some lookup ∧
      lookup.map Prod.fst = s.authorMap.map Prod.fst ∧
      (∀ e ∈ lookup, e.2 ≠ [] ∧
        (∀ x ∈ e.2, ∃ r i, x = Entry.live r ∧ (s.deref r).id = some i) ∧
        (e.2.map (entryId s)).Pairwise (· < ·)) ∧
      (lookup.map (fun e => (e.2.map (entryId s)).headD 0)).Pairwise (· < ·) ∧
      (∀ t : State, t.adminNames = s.adminNames → t.authorMap = s.authorMap →
        t.myShortName = s.myShortName → t.timeStampOptions = s.timeStampOptions →
        t.totalMessageCount = s.totalMessageCount → toJSON t = toJSON s) := by
  have hi := reachable_ingested s h
  refine ⟨_, toJSON_lookup s, ?_, ?_, ?_, ?_⟩
  · simp [List.map_map, Function.comp_def]
  · intro e he
    obtain ⟨e0, he0, rfl⟩ := List.mem_map.mp he
    have ha := hi.arrays e0 he0
    refine ⟨by simpa using ha.1, ?_, ?_⟩
    · intro x hx
      obtain ⟨r, hr, rfl⟩ := List.mem_map.mp hx
      exact ⟨r, r, rfl, hi.ids r (ha.2.2 r hr)⟩
    · simp only
      rw [map_entryId_live s hi e0.2 ha.2.2]
      exact ha.2.1
  · rw [List.map_map]
    have hfun : s.authorMap.map
        ((fun e : String × List Entry => (e.2.map (entryId s)).headD 0) ∘
          fun e => (e.1, e.2.map Entry.live)) =
        s.authorMap.map (fun e => e.2.headD 0) := by
      apply List.map_congr_left
      intro e0 he0
      simp only [Function.comp_apply]
      rw [map_entryId_live s hi e0.2 (hi.arrays e0 he0).2.2]
    rw [hfun]
    exact hi.firsts
  · intro t h1 h2 h3 h4 h5
    simp [toJSON, h1, h2, h3, h4, h5]

/-- After `A`, `B`, `A` the entries are `A` then `B`, first ids 0 then 1. -/
theorem toJSON_order_witness :
    ∃ lookup, (toJSON threeMessageState).aurthorLookup = some lookup ∧
      lookup.map Prod.fst = ["A", "B"] ∧
      (lookup.map (fun e => (e.2.map (entryId threeMessageState)).headD 0)).Pairwise (· < ·) := by
  obtain ⟨lookup, h1, h2, _, h4, _⟩ :=
    toJSON_order threeMessageState (Reachable.byParseAllMessages _ _ Reachable.initial)
  exact ⟨lookup, h1, h2.trans (by decide), h4⟩

/-- C16: in a state reached by ingestion no message is among its own replies. -/
theorem no_self_reply (s : State) (h : Reachable s) (r : Ref) :
    Reply.message r ∉ (s.deref r).replies := by
  rw [(reachable_ingested s h).replies r]
  exact List.not_mem_nil _

/-- A message that names its own author is not among its own replies. -/
theorem no_self_reply_witness :
    (construct (.li recordSelf) State.initial).1 = .ok 0 ∧
    Reply.message 0 ∉ ((construct (.li recordSelf) State.initial).2.deref 0).replies :=
  ⟨by decide,
   no_self_reply _ (Reachable.byConstructor State.initial recordSelf Reachable.initial) 0⟩

/-- C18: in a state reached by ingestion the replies of every message have strictly
ascending ids, each above the id of the message itself; the list is in fact empty. -/
theorem replies_chronological (s : State) (h : Reachable s) (r : Ref) :
    (s.deref r).replies.Pairwise
      (fun a b => ∃ i j, replyIdOf s a = some i ∧ replyIdOf s b = some j ∧ i < j) ∧
    (∀ reply ∈ (s.deref r).replies, ∃ own i,
      (s.deref r).id = some own ∧ replyIdOf s reply = some i ∧ own < i) ∧
    (s.deref r).replies = [] := by
  have hr := (reachable_ingested s h).replies r
  rw [hr]
  exact ⟨List.Pairwise.nil, fun _ hx => absurd hx (List.not_mem_nil _), rfl⟩

/-- After `A`, `B`, `A` the replies of message 0 are in order. -/
theorem replies_chronological_witness :
    (threeMessageState.deref 0).replies.Pairwise
      (fun a b => ∃ i j, replyIdOf threeMessageState a = some i ∧
        replyIdOf threeMessageState b = some j ∧ i < j) :=
  (replies_chronological threeMessageState
    (Reachable.byParseAllMessages _ _ Reachable.initial) 0).1

end DAT
